import Mathlib

set_option maxHeartbeats 1000000

/- Shallow embedding of dcpu.py: a DCPU-16 emulator consisting of a
word-addressed RAM, an eleven-register bank and a CPU with a
fetch-decode-execute step.  Mutating Python methods become actions in a
state-and-exception monad over the CPU state; an exception leaves in place
all mutations performed before the raise, as in Python. -/

/-- The Python exception kinds the emulator can raise. -/
inductive Err
  | indexError
  | keyError
  | valueError
  | typeError
deriving DecidableEq, Repr

/-- Truncation of a rational toward zero, which is what Python's int()
builtin does to a float. -/
def truncInt (q : ℚ) : Int := if 0 ≤ q then ⌊q⌋ else ⌈q⌉

/-- A dynamically-typed Python value, as far as sanitized_value cares:
an int, a float, a string, or None. -/
inductive PyVal
  | int (n : Int)
  | float (q : ℚ)
  | str (s : String)
  | none
deriving DecidableEq

/-- Python's int() builtin applied to a PyVal: ints pass through, floats
truncate toward zero, strings parse as integers (ValueError when they do
not parse), None raises TypeError. -/
def pyToInt : PyVal → Except Err Int
  | .int n => .ok n
  | .float q => .ok (truncInt q)
  | .str s =>
      match s.toInt? with
      | some n => .ok n
      | Option.none => .error .valueError
  | .none => .error .typeError

/-- sanitized_value on a value that is already an int: reduce modulo
2^word_length.  Python's % with a positive modulus yields a result in
[0, 2^word_length), exactly as Int.emod does. -/
def sanitized_value (value : Int) (word_length : Nat) : Nat :=
  (value % ((2 : Int) ^ word_length)).toNat

/-- The full dynamic sanitized_value: a non-int value is first coerced with
int(), which can raise, then reduced modulo 2^word_length. -/
def sanitized_value_py (value : PyVal) (word_length : Nat) : Except Err Nat := do
  let n ← pyToInt value
  pure (sanitized_value n word_length)

/-- Helper to construct a 16-bit op word: word = o + (a << 4) + (b << 10). -/
def compile_word (b a o : Nat) : Nat := o + (a <<< 4) + (b <<< 10)

/-- Returns (b, a, o): the reverse of compile_word. -/
def decompile_word (word : Nat) : Nat × Nat × Nat :=
  (word >>> 10, (word >>> 4) &&& 0x3f, word &&& 0xf)

/-- The RAM: a word-addressed store of `size` cells.  The cells are
modelled as a function from position to value; only positions below
`size` are ever read or written. -/
structure RAM where
  word_length : Nat
  size : Nat
  contents : Nat → Nat

/-- RAM construction: zero-filled, with an optional initial prefix
(dcpu.py asserts the prefix is no longer than the store). -/
def RAM.make (word_length size : Nat) (initial : List Nat) : RAM :=
  { word_length := word_length, size := size,
    contents := fun p => if p < initial.length then initial.getD p 0 else 0 }

/-- Python list indexing as used by RAM.get and RAM.set: a position in
[0, size) indexes directly, one in [-size, 0) indexes from the end, and
anything else raises IndexError. -/
def RAM.index (r : RAM) (pos : Int) : Except Err Nat :=
  if 0 ≤ pos ∧ pos < (r.size : Int) then .ok pos.toNat
  else if -(r.size : Int) ≤ pos ∧ pos < 0 then .ok ((r.size : Int) + pos).toNat
  else .error .indexError

/-- RAM.get: return the cell at pos (Python list read). -/
def RAM.get (r : RAM) (pos : Int) : Except Err Nat := do
  let idx ← r.index pos
  pure (r.contents idx)

/-- RAM.set with an int value: sanitize, then store (Python list write). -/
def RAM.set (r : RAM) (pos : Int) (value : Int) : Except Err RAM := do
  let v := sanitized_value value r.word_length
  let idx ← r.index pos
  pure { r with contents := fun p => if p = idx then v else r.contents p }

/-- RAM.set with a dynamically-typed value: sanitized_value first coerces
with int() (which can raise), before the position is even looked at. -/
def RAM.setPy (r : RAM) (pos : Int) (value : PyVal) : Except Err RAM := do
  let n ← pyToInt value
  r.set pos n

/-- The eleven register names, in the canonical order of
DCPURegisterBank.all_regs. -/
inductive RegName
  | a | b | c | x | y | z | i | j | pc | sp | o
deriving DecidableEq

/-- The register bank: eleven word slots plus the word length used by the
sanitizing write path (DCPURegisterBank.__setattr__). -/
structure DCPURegisterBank where
  word_length : Nat
  a : Nat
  b : Nat
  c : Nat
  x : Nat
  y : Nat
  z : Nat
  i : Nat
  j : Nat
  pc : Nat
  sp : Nat
  o : Nat

/-- Read a register by name. -/
def DCPURegisterBank.get (rb : DCPURegisterBank) : RegName → Nat
  | .a => rb.a
  | .b => rb.b
  | .c => rb.c
  | .x => rb.x
  | .y => rb.y
  | .z => rb.z
  | .i => rb.i
  | .j => rb.j
  | .pc => rb.pc
  | .sp => rb.sp
  | .o => rb.o

/-- Write a register by name; __setattr__ sanitizes to the word length. -/
def DCPURegisterBank.set (rb : DCPURegisterBank) (r : RegName) (value : Int) :
    DCPURegisterBank :=
  let v := sanitized_value value rb.word_length
  match r with
  | .a => { rb with a := v }
  | .b => { rb with b := v }
  | .c => { rb with c := v }
  | .x => { rb with x := v }
  | .y => { rb with y := v }
  | .z => { rb with z := v }
  | .i => { rb with i := v }
  | .j => { rb with j := v }
  | .pc => { rb with pc := v }
  | .sp => { rb with sp := v }
  | .o => { rb with o := v }

/-- The CPU state: register bank, RAM and cycle counter. -/
structure CPU where
  reg : DCPURegisterBank
  ram : RAM
  cycle : Nat

/-- The monad of CPU methods: state plus Python exceptions.  Mutations
made before a raise persist in the returned state. -/
def M (α : Type) : Type := CPU → Except Err α × CPU

instance : Monad M where
  pure a := fun s => (.ok a, s)
  bind m f := fun s =>
    match m s with
    | (.ok a, s1) => f a s1
    | (.error e, s1) => (.error e, s1)

def M.throw {α : Type} (e : Err) : M α := fun s => (.error e, s)

def M.getCpu : M CPU := fun s => (.ok s, s)

def M.readReg (r : RegName) : M Nat := fun s => (.ok (s.reg.get r), s)

def M.writeReg (r : RegName) (v : Int) : M Unit :=
  fun s => (.ok (), { s with reg := s.reg.set r v })

def M.ramGet (pos : Nat) : M Nat := fun s => (s.ram.get (pos : Int), s)

def M.ramSet (pos : Nat) (v : Int) : M Unit := fun s =>
  match s.ram.set (pos : Int) v with
  | .ok r => (.ok (), { s with ram := r })
  | .error e => (.error e, s)

def M.addCycle (n : Nat) : M Unit := fun s => (.ok (), { s with cycle := s.cycle + n })

/-- DCPURegisterBank.regs: the tuple of the first eight register names,
indexed 0..7.  dcpu.py only ever indexes it with 0..7 (the operand-code
dictionaries are built over range(0x00, 0x08)), so the catch-all branch
is unreachable. -/
def regs : Nat → RegName
  | 0 => .a
  | 1 => .b
  | 2 => .c
  | 3 => .x
  | 4 => .y
  | 5 => .z
  | 6 => .i
  | 7 => .j
  | _ => .a

/-- CPU.next_word: read the word at PC, then increment PC. -/
def CPU.next_word : M Nat := do
  let s ← M.getCpu
  let word ← M.ramGet (s.reg.get .pc)
  M.writeReg .pc ((s.reg.get .pc : Int) + 1)
  pure word

/-- Python truthiness of the optional value argument of pop/push/peek:
None and 0 are falsy. -/
def isTruthy : Option Int → Bool
  | Option.none => false
  | some v => v != 0

/-- The shared body of pop/push/peek: `if value:` write the value at the
given position, else read the word there; return the value written or
read.  The read path returns a RAM word, so the cast is lossless. -/
def CPU.writeOrRead (p : Nat) (value : Option Int) : M Int :=
  if isTruthy value then do
    M.ramSet p (value.getD 0)
    pure (value.getD 0)
  else do
    let w ← M.ramGet p
    pure ((w : Nat) : Int)

/-- CPU.pop: write the value at SP when it is truthy, otherwise read the
word at SP; then increment SP. -/
def CPU.pop (value : Option Int) : M Int := do
  let s ← M.getCpu
  let ret ← CPU.writeOrRead (s.reg.get .sp) value
  let s2 ← M.getCpu
  M.writeReg .sp ((s2.reg.get .sp : Int) + 1)
  pure ret

/-- CPU.push: decrement SP; then write the value at the new SP when it is
truthy, otherwise read the word at the new SP. -/
def CPU.push (value : Option Int) : M Int := do
  let s ← M.getCpu
  M.writeReg .sp ((s.reg.get .sp : Int) - 1)
  let s2 ← M.getCpu
  CPU.writeOrRead (s2.reg.get .sp) value

/-- CPU.peek: write the value at SP when it is truthy, otherwise read the
word at SP; SP is unchanged. -/
def CPU.peek (value : Option Int) : M Int := do
  let s ← M.getCpu
  CPU.writeOrRead (s.reg.get .sp) value

/-- CPU.needs_next_word: operand codes that consume an inline next word. -/
def CPU.needs_next_word (c : Nat) : Bool :=
  (0x10 ≤ c && c ≤ 0x17) || c == 0x1e || c == 0x1f

/-- The `if needs_next_word: cycle += 1` preamble shared by get_by_code,
set_by_code and address_for_operand. -/
def CPU.cycleSurcharge (c : Nat) : M Unit :=
  if CPU.needs_next_word c then M.addCycle 1 else pure ()

/-- The value_codes dictionary as a function of the operand code: the read
behaviour of each code.  Keys run over 0x00..0x3f; any other code is a
dictionary miss (KeyError).  The read paths of pop/peek/push return a RAM
word, so the Int.toNat is lossless. -/
def CPU.value_codes (c : Nat) : M Nat := do
  if c < 0x08 then do
    let s ← M.getCpu
    pure (s.reg.get (regs c))
  else if c < 0x10 then do
    let s ← M.getCpu
    M.ramGet (s.reg.get (regs (c - 0x08)))
  else if c < 0x18 then do
    let nw ← CPU.next_word
    let s ← M.getCpu
    M.ramGet (nw + s.reg.get (regs (c - 0x10)))
  else if c = 0x18 then do
    let v ← CPU.pop Option.none
    pure v.toNat
  else if c = 0x19 then do
    let v ← CPU.peek Option.none
    pure v.toNat
  else if c = 0x1a then do
    let v ← CPU.push Option.none
    pure v.toNat
  else if c = 0x1b then do
    let s ← M.getCpu
    pure (s.reg.get .sp)
  else if c = 0x1c then do
    let s ← M.getCpu
    pure (s.reg.get .pc)
  else if c = 0x1d then do
    let s ← M.getCpu
    pure (s.reg.get .o)
  else if c = 0x1e then do
    let nw ← CPU.next_word
    M.ramGet nw
  else if c = 0x1f then
    CPU.next_word
  else if c < 0x40 then
    pure (c - 0x20)
  else
    M.throw .keyError

/-- The set_codes dictionary as a function of the operand code: the write
behaviour of each code.  Codes 0x1f and 0x20..0x3f discard the value.
Any code outside 0x00..0x3f is a dictionary miss (KeyError). -/
def CPU.set_codes (c : Nat) (value : Int) : M Unit := do
  if c < 0x08 then
    M.writeReg (regs c) value
  else if c < 0x10 then do
    let s ← M.getCpu
    M.ramSet (s.reg.get (regs (c - 0x08))) value
  else if c < 0x18 then do
    let nw ← CPU.next_word
    let s ← M.getCpu
    M.ramSet (nw + s.reg.get (regs (c - 0x10))) value
  else if c = 0x18 then do
    let _ ← CPU.pop (some value)
    pure ()
  else if c = 0x19 then do
    let _ ← CPU.peek (some value)
    pure ()
  else if c = 0x1a then do
    let _ ← CPU.push (some value)
    pure ()
  else if c = 0x1b then M.writeReg .sp value
  else if c = 0x1c then M.writeReg .pc value
  else if c = 0x1d then M.writeReg .o value
  else if c = 0x1e then do
    let nw ← CPU.next_word
    M.ramSet nw value
  else if c = 0x1f then pure ()
  else if c < 0x40 then pure ()
  else M.throw .keyError

/-- CPU.get_by_code: cycle surcharge for next-word codes, then the read. -/
def CPU.get_by_code (c : Nat) : M Nat := do
  CPU.cycleSurcharge c
  CPU.value_codes c

/-- CPU.set_by_code: cycle surcharge for next-word codes, then the write. -/
def CPU.set_by_code (c : Nat) (value : Int) : M Unit := do
  CPU.cycleSurcharge c
  CPU.set_codes c value

/-- A resolved write target: a register name, a RAM position, or Python's
None (address_for_operand catches the dictionary miss for codes 0x1f and
0x20..0x3f and returns None). -/
inductive Addr
  | reg (r : RegName)
  | ram (pos : Nat)
  | none
deriving DecidableEq

/-- CPU.pop_addr: the current SP, then SP is incremented. -/
def CPU.pop_addr : M Nat := do
  let s ← M.getCpu
  let address := s.reg.get .sp
  M.writeReg .sp ((address : Int) + 1)
  pure address

/-- CPU.push_addr: SP is decremented, then the new SP. -/
def CPU.push_addr : M Nat := do
  let s ← M.getCpu
  M.writeReg .sp ((s.reg.get .sp : Int) - 1)
  let s2 ← M.getCpu
  pure (s2.reg.get .sp)

/-- CPU.peek_addr: the current SP. -/
def CPU.peek_addr : M Nat := do
  let s ← M.getCpu
  pure (s.reg.get .sp)

/-- CPU.address_for_operand: cycle surcharge for next-word codes, then the
operands dictionary; a dictionary miss (codes 0x1f and above) is caught
and yields None. -/
def CPU.address_for_operand (c : Nat) : M Addr := do
  CPU.cycleSurcharge c
  if c < 0x08 then
    pure (Addr.reg (regs c))
  else if c < 0x10 then do
    let s ← M.getCpu
    pure (Addr.ram (s.reg.get (regs (c - 0x08))))
  else if c < 0x18 then do
    let nw ← CPU.next_word
    let s ← M.getCpu
    pure (Addr.ram (nw + s.reg.get (regs (c - 0x10))))
  else if c = 0x18 then do
    let p ← CPU.pop_addr
    pure (Addr.ram p)
  else if c = 0x19 then do
    let p ← CPU.peek_addr
    pure (Addr.ram p)
  else if c = 0x1a then do
    let p ← CPU.push_addr
    pure (Addr.ram p)
  else if c = 0x1b then pure (Addr.reg .sp)
  else if c = 0x1c then pure (Addr.reg .pc)
  else if c = 0x1d then pure (Addr.reg .o)
  else if c = 0x1e then do
    let nw ← CPU.next_word
    pure (Addr.ram nw)
  else
    pure Addr.none

/-- CPU.get_by_address: a None address reads through value_codes (this is
how literal and 0x1f operands produce their value); an int address reads
RAM; a register-name address reads the register. -/
def CPU.get_by_address (addr : Addr) (code : Nat) : M Nat :=
  match addr with
  | .none => CPU.value_codes code
  | .ram p => M.ramGet p
  | .reg r => M.readReg r

/-- CPU.set_by_address: an int address writes RAM; a register-name address
writes the register; Python's None address falls into `self.reg[None]`,
which raises KeyError. -/
def CPU.set_by_address (addr : Addr) (value : Int) : M Unit :=
  match addr with
  | .ram p => M.ramSet p value
  | .reg r => M.writeReg r value
  | .none => M.throw .keyError

/-- The basic opcodes (the Opcode enum of dcpu.py). -/
inductive Opcode
  | NONBASIC
  | SET
  | ADD
  | SUB
  | MUL
  | DIV
  | MOD
  | SHL
  | SHR
  | AND
  | BOR
  | XOR
  | IFE
  | IFN
  | IFG
  | IFB
deriving DecidableEq

/-- Opcode(o): the enum lookup, defined for 0x0..0xf. -/
def opcodeOfNat (n : Nat) : Option Opcode :=
  match n with
  | 0x0 => some .NONBASIC
  | 0x1 => some .SET
  | 0x2 => some .ADD
  | 0x3 => some .SUB
  | 0x4 => some .MUL
  | 0x5 => some .DIV
  | 0x6 => some .MOD
  | 0x7 => some .SHL
  | 0x8 => some .SHR
  | 0x9 => some .AND
  | 0xa => some .BOR
  | 0xb => some .XOR
  | 0xc => some .IFE
  | 0xd => some .IFN
  | 0xe => some .IFG
  | 0xf => some .IFB
  | _ => Option.none

def CPU.SET (a b : Nat) (addr : Addr) : M Unit := do
  M.addCycle 1
  CPU.set_by_address addr (b : Int)

def CPU.ADD (a b : Nat) (addr : Addr) : M Unit := do
  M.addCycle 2
  let value : Int := (a : Int) + (b : Int)
  CPU.set_by_address addr value
  M.writeReg .o (if value < 2 ^ 16 then 0 else 0x0001)

def CPU.SUB (a b : Nat) (addr : Addr) : M Unit := do
  M.addCycle 2
  let value : Int := (a : Int) - (b : Int)
  CPU.set_by_address addr value
  M.writeReg .o (if 0 ≤ value then 0 else 0xffff)

def CPU.MUL (a b : Nat) (addr : Addr) : M Unit := do
  M.addCycle 2
  CPU.set_by_address addr ((a * b : Nat) : Int)
  M.writeReg .o ((((a * b) >>> 16) &&& 0xffff : Nat) : Int)

/-- CPU.DIV: Python computes a // b inside a try block; b = 0 raises
ZeroDivisionError and the except branch writes 0 to the destination.
The except branch does not touch O. -/
def CPU.DIV (a b : Nat) (addr : Addr) : M Unit := do
  M.addCycle 3
  if b = 0 then
    CPU.set_by_address addr 0
  else do
    CPU.set_by_address addr ((a / b : Nat) : Int)
    M.writeReg .o ((((a <<< 16) / b) &&& 0xffff : Nat) : Int)

/-- CPU.MOD: as DIV, the b = 0 except branch writes 0 and does not
touch O. -/
def CPU.MOD (a b : Nat) (addr : Addr) : M Unit := do
  M.addCycle 3
  if b = 0 then
    CPU.set_by_address addr 0
  else
    CPU.set_by_address addr ((a % b : Nat) : Int)

def CPU.SHL (a b : Nat) (addr : Addr) : M Unit := do
  M.addCycle 2
  CPU.set_by_address addr ((a <<< b : Nat) : Int)
  M.writeReg .o ((((a <<< b) >>> 16) &&& 0xffff : Nat) : Int)

def CPU.SHR (a b : Nat) (addr : Addr) : M Unit := do
  M.addCycle 2
  CPU.set_by_address addr ((a >>> b : Nat) : Int)
  M.writeReg .o ((((a <<< 16) >>> b) &&& 0xffff : Nat) : Int)

def CPU.AND (a b : Nat) (addr : Addr) : M Unit := do
  M.addCycle 1
  CPU.set_by_address addr ((a &&& b : Nat) : Int)

def CPU.BOR (a b : Nat) (addr : Addr) : M Unit := do
  M.addCycle 1
  CPU.set_by_address addr ((a ||| b : Nat) : Int)

def CPU.XOR (a b : Nat) (addr : Addr) : M Unit := do
  M.addCycle 1
  CPU.set_by_address addr ((a ^^^ b : Nat) : Int)

/-- One conditional extra fetch of the skip procedure: consume a next
word when the operand code requires one. -/
def CPU.skipExtra (c : Nat) : M Unit :=
  if CPU.needs_next_word c then do
    let _ ← CPU.next_word
    pure ()
  else pure ()

/-- CPU.skip_next_and_cycle: fetch one word, and one more for each of its
two operand codes that consumes a next word; then add one cycle. -/
def CPU.skip_next_and_cycle : M Unit := do
  let word ← CPU.next_word
  let (b, a, _) := decompile_word word
  CPU.skipExtra a
  CPU.skipExtra b
  M.addCycle 1

def CPU.IFE (a b : Nat) (addr : Addr) : M Unit := do
  M.addCycle 2
  if a = b then pure () else CPU.skip_next_and_cycle

def CPU.IFN (a b : Nat) (addr : Addr) : M Unit := do
  M.addCycle 2
  if a ≠ b then pure () else CPU.skip_next_and_cycle

def CPU.IFG (a b : Nat) (addr : Addr) : M Unit := do
  M.addCycle 2
  if a > b then pure () else CPU.skip_next_and_cycle

def CPU.IFB (a b : Nat) (addr : Addr) : M Unit := do
  M.addCycle 2
  if a &&& b ≠ 0 then pure () else CPU.skip_next_and_cycle

/-- CPU.JSR: add the base cost, push the current PC, jump to the operand. -/
def CPU.JSR (a : Nat) (addr : Addr) : M Unit := do
  M.addCycle 2
  let s ← M.getCpu
  let _ ← CPU.push (some ((s.reg.get .pc : Nat) : Int))
  M.writeReg .pc (a : Int)

/-- The opcodes dispatch dictionary for basic opcodes.  NONBASIC is not a
key of the dictionary (looking it up would be a KeyError); step never
dispatches it. -/
def CPU.execBasic (op : Opcode) (a b : Nat) (addr : Addr) : M Unit :=
  match op with
  | .SET => CPU.SET a b addr
  | .ADD => CPU.ADD a b addr
  | .SUB => CPU.SUB a b addr
  | .MUL => CPU.MUL a b addr
  | .DIV => CPU.DIV a b addr
  | .MOD => CPU.MOD a b addr
  | .SHL => CPU.SHL a b addr
  | .SHR => CPU.SHR a b addr
  | .AND => CPU.AND a b addr
  | .BOR => CPU.BOR a b addr
  | .XOR => CPU.XOR a b addr
  | .IFE => CPU.IFE a b addr
  | .IFN => CPU.IFN a b addr
  | .IFG => CPU.IFG a b addr
  | .IFB => CPU.IFB a b addr
  | .NONBASIC => M.throw .keyError

/-- One operand resolution of step: the write target, then the read value;
these are the two consecutive address_for_operand / get_by_address lines
of CPU.step. -/
def CPU.resolve_operand (c : Nat) : M (Addr × Nat) := do
  let addr ← CPU.address_for_operand c
  let v ← CPU.get_by_address addr c
  pure (addr, v)

/-- CPU.step (the later definition in dcpu.py, which overrides the earlier
one): fetch and decode; for a non-basic word check the non-basic opcode
(only JSR = 0x01 exists, anything else is a ValueError) and resolve its
single operand from the b field; otherwise resolve A then B and dispatch
with A's captured write target. -/
def CPU.step : M Unit := do
  let word ← CPU.next_word
  let (b, a, o) := decompile_word word
  match opcodeOfNat o with
  | Option.none => M.throw .valueError
  | some op =>
    if op = Opcode.NONBASIC then
      if a = 0x01 then do
        let (a_addr, a_val) ← CPU.resolve_operand b
        CPU.JSR a_val a_addr
      else M.throw .valueError
    else do
      let (a_addr, a_val) ← CPU.resolve_operand a
      let (_b_addr, b_val) ← CPU.resolve_operand b
      CPU.execBasic op a_val b_val a_addr

/-- Iterated steps: the state reached after n calls to step, keeping the
mutations of a step that raised (callers may keep stepping a CPU whose
previous step raised, as the Python object remains usable). -/
def CPU.stepN : Nat → CPU → CPU
  | 0, s => s
  | n + 1, s => CPU.stepN n (CPU.step s).2

/-- Observation helper: read a RAM cell out of an Except-wrapped RAM. -/
def ramPeek (e : Except Err RAM) (pos : Int) : Except Err Nat :=
  match e with
  | .ok r => r.get pos
  | .error err => .error err

/-- Every register of the bank holds a value below 2^word_length. -/
def RegInv (rb : DCPURegisterBank) : Prop :=
  ∀ r : RegName, rb.get r < 2 ^ rb.word_length

/-- Every RAM cell holds a value below 2^word_length. -/
def RamInv (ram : RAM) : Prop :=
  ∀ p : Nat, ram.contents p < 2 ^ ram.word_length

/-- The word-range invariant of a CPU state. -/
def CPUInv (s : CPU) : Prop := RegInv s.reg ∧ RamInv s.ram

/-- A monadic action is tame when it preserves the word-range invariant
and never alters the word lengths or the RAM size. -/
def Tame {α : Type} (m : M α) : Prop :=
  ∀ s : CPU,
    (CPUInv s → CPUInv (m s).2) ∧
    (m s).2.reg.word_length = s.reg.word_length ∧
    (m s).2.ram.word_length = s.ram.word_length ∧
    (m s).2.ram.size = s.ram.size

/-- A CPU as built by the default CPU() constructor shape: 16-bit
registers, 16-bit RAM of 2^16 words, all values in word range. -/
def Std (s : CPU) : Prop :=
  s.reg.word_length = 16 ∧ s.ram.word_length = 16 ∧ s.ram.size = 65536 ∧
    CPUInv s

/-- Number of inline next-words an operand code consumes. -/
def nwCost (c : Nat) : Nat := if CPU.needs_next_word c then 1 else 0

/-- Write targets step can actually store to: a register, or a RAM
position inside the store.  Python's None target is not valid (writing
to it raises KeyError). -/
def Addr.valid (s : CPU) : Addr → Prop
  | .reg _ => True
  | .ram p => p < s.ram.size
  | .none => False

/-- The value currently held at a write target. -/
def targetValue (s : CPU) : Addr → Nat
  | .reg r => s.reg.get r
  | .ram p => s.ram.contents p
  | .none => 0

/-- An all-zero 16-bit register bank (the default CPU() registers). -/
def regbank0 : DCPURegisterBank :=
  { word_length := 16, a := 0, b := 0, c := 0, x := 0, y := 0, z := 0,
    i := 0, j := 0, pc := 0, sp := 0, o := 0 }

/-- A default-shaped CPU: zero registers, 2^16-word 16-bit RAM loaded
with the given program at address 0, cycle 0. -/
def mkCPU (l : List Nat) : CPU :=
  { reg := regbank0, ram := RAM.make 16 65536 l, cycle := 0 }

/-- DIV B, literal-0 with O initially 5 (cf. test_DIV_zero, which only
runs it with O = 0). -/
def exampleDivZero : CPU :=
  { reg := { regbank0 with b := 9, o := 5 },
    ram := RAM.make 16 65536 [compile_word 0x20 0x01 0x5], cycle := 0 }

/-- SET literal-0, literal-1: a basic instruction whose A operand is a
literal, so the SET write goes to a None target. -/
def exampleSetLiteralDest : CPU := mkCPU [compile_word 0x21 0x20 0x1]

/-- SET PC, literal-5: a one-word instruction that writes PC. -/
def exampleSetPcLiteral : CPU := mkCPU [compile_word 0x25 0x1c 0x1]

/-- SET B, literal-2 (test_SET). -/
def exampleSetB2 : CPU := mkCPU [compile_word 0x22 0x01 0x1]

/-- A JSR A instruction placed at 0xffff, so that the PC pushed by JSR
(the post-fetch PC) is 0; RAM[4] holds 7 and SP = 5, so the push target
cell is observable. -/
def exampleJsrZeroPc : CPU :=
  { reg := { regbank0 with pc := 0xffff, sp := 5, a := 3 },
    ram := { word_length := 16, size := 65536,
             contents := fun p => if p = 0xffff then 0x10 else if p = 4 then 7 else 0 },
    cycle := 0 }

/-- SET [next_word], next_word (test_a_handled_before_b): 0x7de1 with
inline words 0x1000 and 0x0020. -/
def exampleSetIndirect : CPU := mkCPU [0x7de1, 0x1000, 0x0020]

/-- A RAM of four 16-bit words, contents [11, 22, 33, 44]. -/
def exampleRam4 : RAM := RAM.make 16 4 [11, 22, 33, 44]

/-- The word the next step will fetch: the RAM cell PC points at. -/
def instrWord (s : CPU) : Nat := s.ram.contents (s.reg.get .pc)

/-- The number of words an instruction word occupies in the stream:
one for the word itself plus one for each operand code (a in bits 4..9,
b in bits 10..15) that consumes an inline next word. -/
def operandsLen (w : Nat) : Nat :=
  1 + nwCost ((w >>> 4) &&& 63) + nwCost (w >>> 10)

/- ------------------------------------------------------------------ -/
/- Basic lemmas about the monad primitives.                            -/
/- ------------------------------------------------------------------ -/

@[simp] theorem M.pure_apply {α : Type} (a : α) (s : CPU) :
    (pure a : M α) s = (.ok a, s) := rfl

@[simp] theorem M.bind_apply {α β : Type} (m : M α) (f : α → M β) (s : CPU) :
    (m >>= f) s =
      match m s with
      | (.ok a, s1) => f a s1
      | (.error e, s1) => (.error e, s1) := rfl

@[simp] theorem M.throw_apply {α : Type} (e : Err) (s : CPU) :
    (M.throw e : M α) s = (.error e, s) := rfl

@[simp] theorem M.getCpu_apply (s : CPU) : M.getCpu s = (.ok s, s) := rfl

@[simp] theorem M.readReg_apply (r : RegName) (s : CPU) :
    M.readReg r s = (.ok (s.reg.get r), s) := rfl

@[simp] theorem M.writeReg_apply (r : RegName) (v : Int) (s : CPU) :
    M.writeReg r v s = (.ok (), { s with reg := s.reg.set r v }) := rfl

@[simp] theorem M.ramGet_apply (p : Nat) (s : CPU) :
    M.ramGet p s = (s.ram.get (p : Int), s) := rfl

@[simp] theorem M.ramSet_apply (p : Nat) (v : Int) (s : CPU) :
    M.ramSet p v s =
      match s.ram.set (p : Int) v with
      | .ok r => (.ok (), { s with ram := r })
      | .error e => (.error e, s) := rfl

@[simp] theorem M.addCycle_apply (n : Nat) (s : CPU) :
    M.addCycle n s = (.ok (), { s with cycle := s.cycle + n }) := rfl

@[simp] theorem M.ite_apply {α : Type} (c : Prop) [Decidable c] (m1 m2 : M α)
    (s : CPU) : (if c then m1 else m2) s = if c then m1 s else m2 s := by
  split <;> rfl

/- ------------------------------------------------------------------ -/
/- sanitized_value.                                                    -/
/- ------------------------------------------------------------------ -/

theorem sanitized_value_lt (v : Int) (wl : Nat) :
    sanitized_value v wl < 2 ^ wl := by
  unfold sanitized_value
  have hcast : ((2 : Int) ^ wl) = ((2 ^ wl : Nat) : Int) := by push_cast; ring
  have hne : ((2 ^ wl : Nat) : Int) ≠ 0 := by positivity
  have h0 : 0 ≤ v % ((2 ^ wl : Nat) : Int) := Int.emod_nonneg v hne
  have h1 : v % ((2 ^ wl : Nat) : Int) < ((2 ^ wl : Nat) : Int) :=
    Int.emod_lt_of_pos v (by positivity)
  rw [hcast]
  omega

@[simp] theorem sanitized_value_natCast (n : Nat) (wl : Nat) :
    sanitized_value (n : Int) wl = n % 2 ^ wl := by
  unfold sanitized_value
  have hcast : ((2 : Int) ^ wl) = ((2 ^ wl : Nat) : Int) := by push_cast; ring
  rw [hcast]
  omega

theorem sanitized_value_natCast_lt (n : Nat) (wl : Nat) (h : n < 2 ^ wl) :
    sanitized_value (n : Int) wl = n := by
  rw [sanitized_value_natCast, Nat.mod_eq_of_lt h]

@[simp] theorem sanitized_value_add_one (n : Nat) (wl : Nat) :
    sanitized_value ((n : Int) + 1) wl = (n + 1) % 2 ^ wl := by
  have h : ((n : Int) + 1) = ((n + 1 : Nat) : Int) := by push_cast; ring
  rw [h, sanitized_value_natCast]

theorem sanitized_value_sub_one_16 (n : Nat) :
    sanitized_value ((n : Int) - 1) 16 = (n + 65535) % 65536 := by
  unfold sanitized_value
  have h : ((2 : Int) ^ 16) = 65536 := by norm_num
  rw [h]
  omega

theorem sanitized_value_add_one_16 (n : Nat) :
    sanitized_value ((n : Int) + 1) 16 = (n + 1) % 65536 := by
  rw [sanitized_value_add_one]
  norm_num

theorem sanitized_value_natCast_16 (n : Nat) :
    sanitized_value (n : Int) 16 = n % 65536 := by
  rw [sanitized_value_natCast]
  norm_num

/- ------------------------------------------------------------------ -/
/- RAM lemmas.                                                         -/
/- ------------------------------------------------------------------ -/

theorem RAM.get_nat_run (r : RAM) (p : Nat) (hp : p < r.size) :
    r.get (p : Int) = .ok (r.contents p) := by
  unfold RAM.get RAM.index
  rw [if_pos ⟨Int.natCast_nonneg p, by exact_mod_cast hp⟩]
  simp

theorem RAM.get_nat_err (r : RAM) (p : Nat) (hp : r.size ≤ p) :
    r.get (p : Int) = .error .indexError := by
  unfold RAM.get RAM.index
  rw [if_neg (by omega), if_neg (by omega)]
  rfl

theorem RAM.set_nat_run (r : RAM) (p : Nat) (v : Int) (hp : p < r.size) :
    r.set (p : Int) v =
      .ok { r with contents :=
              fun q => if q = p then sanitized_value v r.word_length
                       else r.contents q } := by
  unfold RAM.set RAM.index
  rw [if_pos ⟨Int.natCast_nonneg p, by exact_mod_cast hp⟩]
  simp

theorem RAM.set_nat_err (r : RAM) (p : Nat) (v : Int) (hp : r.size ≤ p) :
    r.set (p : Int) v = .error .indexError := by
  unfold RAM.set RAM.index
  rw [if_neg (by omega), if_neg (by omega)]
  rfl

/- ------------------------------------------------------------------ -/
/- Register bank lemmas.                                               -/
/- ------------------------------------------------------------------ -/

theorem DCPURegisterBank.get_set (rb : DCPURegisterBank) (r r' : RegName)
    (v : Int) :
    (rb.set r v).get r' =
      if r' = r then sanitized_value v rb.word_length else rb.get r' := by
  cases r <;> cases r' <;>
    simp [DCPURegisterBank.set, DCPURegisterBank.get]

@[simp] theorem DCPURegisterBank.get_set_self (rb : DCPURegisterBank)
    (r : RegName) (v : Int) :
    (rb.set r v).get r = sanitized_value v rb.word_length := by
  rw [DCPURegisterBank.get_set, if_pos rfl]

theorem DCPURegisterBank.get_set_ne (rb : DCPURegisterBank) (r r' : RegName)
    (v : Int) (h : r' ≠ r) : (rb.set r v).get r' = rb.get r' := by
  rw [DCPURegisterBank.get_set, if_neg h]

@[simp] theorem DCPURegisterBank.wl_set (rb : DCPURegisterBank) (r : RegName)
    (v : Int) : (rb.set r v).word_length = rb.word_length := by
  cases r <;> rfl

/-- regs only returns general-purpose register names. -/
theorem regs_ne_pc (n : Nat) : regs n ≠ .pc := by
  unfold regs
  split <;> simp

theorem regs_ne_sp (n : Nat) : regs n ≠ .sp := by
  unfold regs
  split <;> simp

theorem regs_ne_o (n : Nat) : regs n ≠ .o := by
  unfold regs
  split <;> simp

/- ------------------------------------------------------------------ -/
/- Tameness: the word-range invariant is preserved and the word        -/
/- lengths and RAM size are untouched, across every action of the CPU. -/
/- ------------------------------------------------------------------ -/

theorem Tame.pure {α : Type} (a : α) : Tame (pure a : M α) :=
  fun _ => ⟨fun h => h, rfl, rfl, rfl⟩

theorem Tame.throw {α : Type} (e : Err) : Tame (M.throw e : M α) :=
  fun _ => ⟨fun h => h, rfl, rfl, rfl⟩

theorem Tame.getCpu : Tame M.getCpu :=
  fun _ => ⟨fun h => h, rfl, rfl, rfl⟩

theorem Tame.readReg (r : RegName) : Tame (M.readReg r) :=
  fun _ => ⟨fun h => h, rfl, rfl, rfl⟩

theorem Tame.addCycle (n : Nat) : Tame (M.addCycle n) :=
  fun _ => ⟨fun h => h, rfl, rfl, rfl⟩

theorem Tame.ramGet (p : Nat) : Tame (M.ramGet p) :=
  fun _ => ⟨fun h => h, rfl, rfl, rfl⟩

theorem Tame.writeReg (r : RegName) (v : Int) : Tame (M.writeReg r v) := by
  intro s
  refine ⟨fun hs => ⟨?_, hs.2⟩, ?_, rfl, rfl⟩
  · intro r'
    simp only [M.writeReg_apply]
    rw [DCPURegisterBank.get_set, DCPURegisterBank.wl_set]
    split
    · exact sanitized_value_lt v _
    · exact hs.1 r'
  · simp only [M.writeReg_apply]
    exact DCPURegisterBank.wl_set s.reg r v

theorem Tame.ramSet (p : Nat) (v : Int) : Tame (M.ramSet p v) := by
  intro s
  simp only [M.ramSet_apply]
  by_cases hp : p < s.ram.size
  · rw [RAM.set_nat_run s.ram p v hp]
    refine ⟨fun hs => ⟨hs.1, ?_⟩, rfl, rfl, rfl⟩
    intro q
    dsimp
    split
    · exact sanitized_value_lt v _
    · exact hs.2 q
  · rw [RAM.set_nat_err s.ram p v (Nat.le_of_not_lt hp)]
    exact ⟨fun h => h, rfl, rfl, rfl⟩

theorem Tame.bind {α β : Type} {m : M α} {f : α → M β} (hm : Tame m)
    (hf : ∀ a, Tame (f a)) : Tame (m >>= f) := by
  intro s
  simp only [M.bind_apply]
  have hm1 := hm s
  rcases h : m s with ⟨res, s1⟩
  rw [h] at hm1
  cases res with
  | ok a =>
    have hf1 := hf a s1
    refine ⟨fun hs => hf1.1 (hm1.1 hs), ?_, ?_, ?_⟩
    · rw [hf1.2.1, hm1.2.1]
    · rw [hf1.2.2.1, hm1.2.2.1]
    · rw [hf1.2.2.2, hm1.2.2.2]
  | error e => exact hm1

theorem Tame.ite {α : Type} (c : Prop) [Decidable c] {m1 m2 : M α}
    (h1 : Tame m1) (h2 : Tame m2) : Tame (if c then m1 else m2) := by
  split
  · exact h1
  · exact h2

theorem Tame.next_word : Tame CPU.next_word := by
  unfold CPU.next_word
  apply Tame.bind Tame.getCpu
  intro s
  apply Tame.bind (Tame.ramGet _)
  intro w
  apply Tame.bind (Tame.writeReg _ _)
  intro u
  exact Tame.pure w

theorem Tame.writeOrRead (p : Nat) (value : Option Int) :
    Tame (CPU.writeOrRead p value) := by
  unfold CPU.writeOrRead
  apply Tame.ite
  · exact Tame.bind (Tame.ramSet _ _) fun _ => Tame.pure _
  · exact Tame.bind (Tame.ramGet _) fun w => Tame.pure _

theorem Tame.pop (value : Option Int) : Tame (CPU.pop value) := by
  unfold CPU.pop
  apply Tame.bind Tame.getCpu
  intro s
  apply Tame.bind (Tame.writeOrRead _ _)
  intro ret
  apply Tame.bind Tame.getCpu
  intro s2
  exact Tame.bind (Tame.writeReg _ _) fun _ => Tame.pure _

theorem Tame.push (value : Option Int) : Tame (CPU.push value) := by
  unfold CPU.push
  apply Tame.bind Tame.getCpu
  intro s
  apply Tame.bind (Tame.writeReg _ _)
  intro u
  exact Tame.bind Tame.getCpu fun s2 => Tame.writeOrRead _ _

theorem Tame.peek (value : Option Int) : Tame (CPU.peek value) := by
  unfold CPU.peek
  exact Tame.bind Tame.getCpu fun s => Tame.writeOrRead _ _

theorem Tame.value_codes (c : Nat) : Tame (CPU.value_codes c) := by
  unfold CPU.value_codes
  apply Tame.ite
  · exact Tame.bind Tame.getCpu fun s => Tame.pure _
  apply Tame.ite
  · exact Tame.bind Tame.getCpu fun s => Tame.ramGet _
  apply Tame.ite
  · apply Tame.bind Tame.next_word
    intro nw
    exact Tame.bind Tame.getCpu fun s => Tame.ramGet _
  apply Tame.ite
  · exact Tame.bind (Tame.pop _) fun v => Tame.pure _
  apply Tame.ite
  · exact Tame.bind (Tame.peek _) fun v => Tame.pure _
  apply Tame.ite
  · exact Tame.bind (Tame.push _) fun v => Tame.pure _
  apply Tame.ite
  · exact Tame.bind Tame.getCpu fun s => Tame.pure _
  apply Tame.ite
  · exact Tame.bind Tame.getCpu fun s => Tame.pure _
  apply Tame.ite
  · exact Tame.bind Tame.getCpu fun s => Tame.pure _
  apply Tame.ite
  · exact Tame.bind Tame.next_word fun nw => Tame.ramGet _
  apply Tame.ite
  · exact Tame.next_word
  apply Tame.ite
  · exact Tame.pure _
  exact Tame.throw _

theorem Tame.set_codes (c : Nat) (value : Int) : Tame (CPU.set_codes c value) := by
  unfold CPU.set_codes
  apply Tame.ite
  · exact Tame.writeReg _ _
  apply Tame.ite
  · exact Tame.bind Tame.getCpu fun s => Tame.ramSet _ _
  apply Tame.ite
  · apply Tame.bind Tame.next_word
    intro nw
    exact Tame.bind Tame.getCpu fun s => Tame.ramSet _ _
  apply Tame.ite
  · exact Tame.bind (Tame.pop _) fun v => Tame.pure _
  apply Tame.ite
  · exact Tame.bind (Tame.peek _) fun v => Tame.pure _
  apply Tame.ite
  · exact Tame.bind (Tame.push _) fun v => Tame.pure _
  apply Tame.ite
  · exact Tame.writeReg _ _
  apply Tame.ite
  · exact Tame.writeReg _ _
  apply Tame.ite
  · exact Tame.writeReg _ _
  apply Tame.ite
  · exact Tame.bind Tame.next_word fun nw => Tame.ramSet _ _
  apply Tame.ite
  · exact Tame.pure _
  apply Tame.ite
  · exact Tame.pure _
  exact Tame.throw _

theorem Tame.pop_addr : Tame CPU.pop_addr := by
  unfold CPU.pop_addr
  apply Tame.bind Tame.getCpu
  intro s
  exact Tame.bind (Tame.writeReg _ _) fun _ => Tame.pure _

theorem Tame.push_addr : Tame CPU.push_addr := by
  unfold CPU.push_addr
  apply Tame.bind Tame.getCpu
  intro s
  apply Tame.bind (Tame.writeReg _ _)
  intro u
  exact Tame.bind Tame.getCpu fun s2 => Tame.pure _

theorem Tame.peek_addr : Tame CPU.peek_addr := by
  unfold CPU.peek_addr
  exact Tame.bind Tame.getCpu fun s => Tame.pure _

theorem Tame.cycleSurcharge (c : Nat) : Tame (CPU.cycleSurcharge c) := by
  unfold CPU.cycleSurcharge
  exact Tame.ite _ (Tame.addCycle 1) (Tame.pure ())

theorem Tame.address_for_operand (c : Nat) :
    Tame (CPU.address_for_operand c) := by
  unfold CPU.address_for_operand
  apply Tame.bind (Tame.cycleSurcharge c)
  intro u
  apply Tame.ite
  · exact Tame.pure _
  apply Tame.ite
  · exact Tame.bind Tame.getCpu fun s => Tame.pure _
  apply Tame.ite
  · apply Tame.bind Tame.next_word
    intro nw
    exact Tame.bind Tame.getCpu fun s => Tame.pure _
  apply Tame.ite
  · exact Tame.bind Tame.pop_addr fun p => Tame.pure _
  apply Tame.ite
  · exact Tame.bind Tame.peek_addr fun p => Tame.pure _
  apply Tame.ite
  · exact Tame.bind Tame.push_addr fun p => Tame.pure _
  apply Tame.ite
  · exact Tame.pure _
  apply Tame.ite
  · exact Tame.pure _
  apply Tame.ite
  · exact Tame.pure _
  apply Tame.ite
  · exact Tame.bind Tame.next_word fun nw => Tame.pure _
  exact Tame.pure _

theorem Tame.get_by_address (addr : Addr) (code : Nat) :
    Tame (CPU.get_by_address addr code) := by
  unfold CPU.get_by_address
  cases addr with
  | none => exact Tame.value_codes code
  | ram p => exact Tame.ramGet p
  | reg r => exact Tame.readReg r

theorem Tame.set_by_address (addr : Addr) (value : Int) :
    Tame (CPU.set_by_address addr value) := by
  unfold CPU.set_by_address
  cases addr with
  | none => exact Tame.throw _
  | ram p => exact Tame.ramSet p value
  | reg r => exact Tame.writeReg r value

theorem Tame.get_by_code (c : Nat) : Tame (CPU.get_by_code c) := by
  unfold CPU.get_by_code
  exact Tame.bind (Tame.cycleSurcharge c) fun u => Tame.value_codes c

theorem Tame.set_by_code (c : Nat) (value : Int) :
    Tame (CPU.set_by_code c value) := by
  unfold CPU.set_by_code
  exact Tame.bind (Tame.cycleSurcharge c) fun u => Tame.set_codes c value

theorem Tame.resolve_operand (c : Nat) : Tame (CPU.resolve_operand c) := by
  unfold CPU.resolve_operand
  apply Tame.bind (Tame.address_for_operand c)
  intro addr
  exact Tame.bind (Tame.get_by_address addr c) fun v => Tame.pure _

theorem Tame.skipExtra (c : Nat) : Tame (CPU.skipExtra c) := by
  unfold CPU.skipExtra
  exact Tame.ite _ (Tame.bind Tame.next_word fun _ => Tame.pure _) (Tame.pure _)

theorem Tame.skip_next_and_cycle : Tame CPU.skip_next_and_cycle := by
  unfold CPU.skip_next_and_cycle
  apply Tame.bind Tame.next_word
  intro word
  rcases decompile_word word with ⟨b1, a1, o1⟩
  dsimp only
  apply Tame.bind (Tame.skipExtra a1)
  intro u
  apply Tame.bind (Tame.skipExtra b1)
  intro u2
  exact Tame.addCycle 1

theorem Tame.execBasic (op : Opcode) (av bv : Nat) (addr : Addr) :
    Tame (CPU.execBasic op av bv addr) := by
  unfold CPU.execBasic
  cases op <;>
    first
    | exact Tame.throw _
    | · unfold CPU.SET CPU.ADD CPU.SUB CPU.MUL CPU.DIV CPU.MOD CPU.SHL
          CPU.SHR CPU.AND CPU.BOR CPU.XOR CPU.IFE CPU.IFN CPU.IFG CPU.IFB
        apply Tame.bind (Tame.addCycle _)
        intro u
        first
        | exact Tame.ite _ (Tame.set_by_address _ _)
            (Tame.bind (Tame.set_by_address _ _) fun _ => Tame.writeReg _ _)
        | exact Tame.bind (Tame.set_by_address _ _) fun _ => Tame.writeReg _ _
        | exact Tame.ite _ (Tame.pure _) Tame.skip_next_and_cycle
        | exact Tame.set_by_address _ _
        | exact Tame.ite _ (Tame.set_by_address _ _) (Tame.set_by_address _ _)

theorem Tame.JSR (av : Nat) (addr : Addr) : Tame (CPU.JSR av addr) := by
  unfold CPU.JSR
  apply Tame.bind (Tame.addCycle 2)
  intro u
  apply Tame.bind Tame.getCpu
  intro s
  exact Tame.bind (Tame.push _) fun _ => Tame.writeReg _ _

theorem Tame.step : Tame CPU.step := by
  unfold CPU.step
  apply Tame.bind Tame.next_word
  intro word
  rcases decompile_word word with ⟨b1, a1, o1⟩
  dsimp only
  cases opcodeOfNat o1 with
  | none => exact Tame.throw _
  | some op =>
    apply Tame.ite
    · apply Tame.ite
      · apply Tame.bind (Tame.resolve_operand b1)
        intro p
        rcases p with ⟨a_addr, a_val⟩
        exact Tame.JSR a_val a_addr
      · exact Tame.throw _
    · apply Tame.bind (Tame.resolve_operand a1)
      intro p
      rcases p with ⟨a_addr, a_val⟩
      apply Tame.bind (Tame.resolve_operand b1)
      intro q
      rcases q with ⟨b_addr, b_val⟩
      exact Tame.execBasic op a_val b_val a_addr

/- ------------------------------------------------------------------ -/
/- Invariant facts about concrete states.                              -/
/- ------------------------------------------------------------------ -/

theorem RegInv_regbank0 : RegInv regbank0 := by
  intro r
  cases r <;> decide

theorem RamInv_make16 (sz : Nat) (l : List Nat) (h : ∀ w ∈ l, w < 65536) :
    RamInv (RAM.make 16 sz l) := by
  intro p
  unfold RAM.make
  dsimp
  split
  · next hp =>
    rw [List.getD_eq_getElem l 0 hp]
    exact h _ (List.getElem_mem hp)
  · norm_num

theorem CPUInv_mkCPU (l : List Nat) (h : ∀ w ∈ l, w < 65536) :
    CPUInv (mkCPU l) :=
  ⟨RegInv_regbank0, RamInv_make16 65536 l h⟩

/- ------------------------------------------------------------------ -/
/- Claim theorems: C5 and C9.                                          -/
/- ------------------------------------------------------------------ -/

/-- Claim C5: for every CPU whose eleven registers and RAM cells all hold
values in [0, 2^W) (W the respective word length), every sequence of step
calls — including steps that raise, whose partial mutations are kept —
reaches only states in which every register and every RAM cell again
holds a value in [0, 2^W). -/
theorem claim_C5_range_invariant (n : Nat) (s : CPU) (h : CPUInv s) :
    CPUInv (CPU.stepN n s) := by
  induction n generalizing s with
  | zero => exact h
  | succ k ih => exact ih (CPU.step s).2 ((Tame.step s).1 h)

theorem claim_C5_range_invariant_witness :
    CPUInv exampleSetB2 ∧ CPUInv (CPU.stepN 2 exampleSetB2) :=
  ⟨CPUInv_mkCPU _ (by decide),
   claim_C5_range_invariant 2 exampleSetB2 (CPUInv_mkCPU _ (by decide))⟩

/-- Claim C9: decompiling a compiled word returns the original fields,
for all b, a in [0, 0x3f] and o in [0, 0xf]. -/
theorem claim_C9_compile_decompile_roundtrip (b a o : Nat) (hb : b ≤ 0x3f)
    (ha : a ≤ 0x3f) (ho : o ≤ 0xf) :
    decompile_word (compile_word b a o) = (b, a, o) := by
  unfold compile_word decompile_word
  have h15 : ∀ x : Nat, x &&& 15 = x % 16 := fun x =>
    Nat.and_pow_two_sub_one_eq_mod x 4
  have h63 : ∀ x : Nat, x &&& 63 = x % 64 := fun x =>
    Nat.and_pow_two_sub_one_eq_mod x 6
  rw [Nat.shiftLeft_eq, Nat.shiftLeft_eq, Nat.shiftRight_eq_div_pow,
    Nat.shiftRight_eq_div_pow, h63, h15]
  norm_num
  refine ⟨?_, ?_, ?_⟩ <;> omega

theorem claim_C9_compile_decompile_roundtrip_witness :
    (0x21 : Nat) ≤ 0x3f ∧ (0x1c : Nat) ≤ 0x3f ∧ (0x7 : Nat) ≤ 0xf ∧
      decompile_word (compile_word 0x21 0x1c 0x7) = (0x21, 0x1c, 0x7) :=
  ⟨by decide, by decide, by decide,
   claim_C9_compile_decompile_roundtrip 0x21 0x1c 0x7 (by decide) (by decide)
     (by decide)⟩

/- ------------------------------------------------------------------ -/
/- Claim C3: RAM access errors.                                        -/
/- ------------------------------------------------------------------ -/

theorem RAM.index_error_iff (r : RAM) (pos : Int) :
    r.index pos = .error .indexError ↔
      pos < -(r.size : Int) ∨ (r.size : Int) ≤ pos := by
  unfold RAM.index
  split
  · next h => simp; omega
  · split
    · next h h2 => simp; omega
    · next h h2 => simp; omega

theorem RAM.get_error_iff (r : RAM) (pos : Int) :
    r.get pos = .error .indexError ↔ r.index pos = .error .indexError := by
  unfold RAM.get
  cases hidx : r.index pos with
  | ok i => simp [hidx]
  | error e =>
    have he : e = Err.indexError := by
      unfold RAM.index at hidx
      split at hidx
      · exact absurd hidx (by simp)
      · split at hidx
        · exact absurd hidx (by simp)
        · cases hidx
          rfl
    subst he
    simp [hidx]

theorem RAM.set_error_iff (r : RAM) (pos : Int) (n : Int) :
    r.set pos n = .error .indexError ↔ r.index pos = .error .indexError := by
  unfold RAM.set
  cases hidx : r.index pos with
  | ok i => simp [hidx]
  | error e =>
    have he : e = Err.indexError := by
      unfold RAM.index at hidx
      split at hidx
      · exact absurd hidx (by simp)
      · split at hidx
        · exact absurd hidx (by simp)
        · cases hidx
          rfl
    subst he
    simp [hidx]

/-- Claim C3 (amended): RAM.get and RAM.set fail with a range error
exactly when pos lies outside [-size, size) — a negative position in
[-size, 0) indexes from the end, Python-list style, instead of failing;
RAM.set first coerces its value with int(), so a float is truncated and
stored rather than rejected, a parseable string is parsed, and only
values int() rejects fail (None with a type error, an unparseable
string with a value error); with an in-range position and an integer
value, set never fails and stores value mod 2^word_length. -/
theorem claim_C3_ram_access (r : RAM) (pos : Int) (n : Int) (q : ℚ)
    (str1 : String) :
    (r.get pos = .error .indexError ↔
        pos < -(r.size : Int) ∨ (r.size : Int) ≤ pos) ∧
    (r.set pos n = .error .indexError ↔
        pos < -(r.size : Int) ∨ (r.size : Int) ≤ pos) ∧
    (r.setPy pos (.int n) = r.set pos n) ∧
    (r.setPy pos (.float q) = r.set pos (truncInt q)) ∧
    (r.setPy pos .none = .error .typeError) ∧
    (str1.toInt? = Option.none →
        r.setPy pos (.str str1) = .error .valueError) ∧
    (0 ≤ pos → pos < (r.size : Int) →
        ramPeek (r.set pos n) pos = .ok (sanitized_value n r.word_length)) := by
  refine ⟨?_, ?_, rfl, rfl, rfl, ?_, ?_⟩
  · rw [RAM.get_error_iff, RAM.index_error_iff]
  · rw [RAM.set_error_iff, RAM.index_error_iff]
  · intro h
    simp [RAM.setPy, pyToInt, h]
    rfl
  · intro h1 h2
    unfold RAM.set RAM.index
    rw [if_pos ⟨h1, h2⟩]
    unfold ramPeek
    show (RAM.get _ pos) = _
    unfold RAM.get RAM.index
    rw [if_pos ⟨h1, h2⟩]
    simp

/-- Claim C3 counterexample: on a RAM of size 4 holding [11, 22, 33, 44],
set with the non-integer float value 2.5 does not fail with a type error
but stores 2, and get at position -1 (outside [0, size)) does not fail
with a range error but returns the last cell. -/
theorem claim_C3_counterexample :
    ramPeek (exampleRam4.setPy 0 (.float (5 / 2))) 0 = .ok 2 ∧
    exampleRam4.get (-1) = .ok 44 := by
  constructor
  · have htr : truncInt (5 / 2 : ℚ) = 2 := by
      unfold truncInt
      rw [if_pos (by norm_num)]
      norm_num
    show ramPeek (exampleRam4.set 0 (truncInt (5 / 2 : ℚ))) 0 = .ok 2
    rw [htr]
    rfl
  · rfl

theorem claim_C3_ram_access_witness :
    (0 : Int) ≤ 0 ∧ (0 : Int) < (exampleRam4.size : Int) ∧
      (exampleRam4.get 9 = .error .indexError ↔
        (9 : Int) < -(exampleRam4.size : Int) ∨
          (exampleRam4.size : Int) ≤ 9) ∧
      ramPeek (exampleRam4.set 0 70000) 0 =
        .ok (sanitized_value 70000 exampleRam4.word_length) := by
  refine ⟨by decide, by decide,
    (claim_C3_ram_access exampleRam4 9 70000 (5 / 2) "zz").1, ?_⟩
  exact (claim_C3_ram_access exampleRam4 0 70000 (5 / 2) "zz").2.2.2.2.2.2
    (by decide) (by decide)

/- ------------------------------------------------------------------ -/
/- Run lemmas: explicit characterizations of single actions.           -/
/- ------------------------------------------------------------------ -/

theorem set_by_address_reg_run (r : RegName) (v : Int) (s : CPU) :
    CPU.set_by_address (Addr.reg r) v s =
      (.ok (), { s with reg := s.reg.set r v }) := rfl

theorem set_by_address_ram_run (p : Nat) (v : Int) (s : CPU)
    (hp : p < s.ram.size) :
    CPU.set_by_address (Addr.ram p) v s =
      (.ok (), { s with ram :=
        { s.ram with contents :=
            fun q => if q = p then sanitized_value v s.ram.word_length
                     else s.ram.contents q } }) := by
  show M.ramSet p v s = _
  rw [M.ramSet_apply, RAM.set_nat_run _ _ _ hp]

theorem set_by_address_none_run (v : Int) (s : CPU) :
    CPU.set_by_address Addr.none v s = (.error .keyError, s) := rfl

theorem writeOrRead_falsy_run (p : Nat) (v : Option Int) (s : CPU)
    (hp : p < s.ram.size) (hv : isTruthy v = false) :
    CPU.writeOrRead p v s = (.ok ((s.ram.contents p : Nat) : Int), s) := by
  unfold CPU.writeOrRead
  rw [M.ite_apply, if_neg (by rw [hv]; exact Bool.false_ne_true)]
  rw [M.bind_apply, M.ramGet_apply, RAM.get_nat_run _ _ hp]
  rfl

theorem writeOrRead_truthy_run (p : Nat) (v : Int) (s : CPU)
    (hp : p < s.ram.size) (hv : v ≠ 0) :
    CPU.writeOrRead p (some v) s =
      (.ok v, { s with ram :=
        { s.ram with contents :=
            fun q => if q = p then sanitized_value v s.ram.word_length
                     else s.ram.contents q } }) := by
  unfold CPU.writeOrRead
  rw [M.ite_apply, if_pos (by simp [isTruthy, hv])]
  rw [M.bind_apply, M.ramSet_apply, RAM.set_nat_run _ _ _ hp]
  rfl

@[simp] theorem sanitized_value_zero (wl : Nat) : sanitized_value 0 wl = 0 := by
  unfold sanitized_value
  rw [Int.zero_emod]
  rfl

theorem pop_zero_run (s : CPU) (hsp : s.reg.get .sp < s.ram.size) :
    CPU.pop (some 0) s =
      (.ok ((s.ram.contents (s.reg.get .sp) : Nat) : Int),
        { s with reg := s.reg.set .sp ((s.reg.get .sp : Int) + 1) }) := by
  unfold CPU.pop
  simp only [M.bind_apply, M.getCpu_apply]
  rw [writeOrRead_falsy_run (s.reg.get .sp) (some 0) s hsp rfl]
  simp only [M.bind_apply, M.getCpu_apply, M.writeReg_apply, M.pure_apply]

theorem peek_zero_run (s : CPU) (hsp : s.reg.get .sp < s.ram.size) :
    CPU.peek (some 0) s =
      (.ok ((s.ram.contents (s.reg.get .sp) : Nat) : Int), s) := by
  unfold CPU.peek
  simp only [M.bind_apply, M.getCpu_apply]
  exact writeOrRead_falsy_run (s.reg.get .sp) (some 0) s hsp rfl

theorem push_zero_run (s : CPU) (h : Std s) :
    CPU.push (some 0) s =
      (.ok ((s.ram.contents ((s.reg.get .sp + 65535) % 65536) : Nat) : Int),
        { s with reg := s.reg.set .sp ((s.reg.get .sp : Int) - 1) }) := by
  obtain ⟨hrw, hmw, hsz, hinv⟩ := h
  have hsp2 : (s.reg.set .sp ((s.reg.get .sp : Int) - 1)).get .sp =
      (s.reg.get .sp + 65535) % 65536 := by
    rw [DCPURegisterBank.get_set_self, hrw, sanitized_value_sub_one_16]
  have hlt : ((s.reg.get .sp + 65535) % 65536) < s.ram.size := by
    rw [hsz]
    exact Nat.mod_lt _ (by norm_num)
  unfold CPU.push
  simp only [M.bind_apply, M.getCpu_apply, M.writeReg_apply]
  rw [hsp2]
  exact writeOrRead_falsy_run _ (some 0) _ hlt rfl

theorem push_truthy_run (s : CPU) (v : Int) (hv : v ≠ 0) (h : Std s) :
    CPU.push (some v) s =
      (.ok v,
        { s with reg := s.reg.set .sp ((s.reg.get .sp : Int) - 1),
                 ram := { s.ram with contents :=
                   fun q => if q = (s.reg.get .sp + 65535) % 65536 then
                       sanitized_value v s.ram.word_length
                     else s.ram.contents q } }) := by
  obtain ⟨hrw, hmw, hsz, hinv⟩ := h
  have hsp2 : (s.reg.set .sp ((s.reg.get .sp : Int) - 1)).get .sp =
      (s.reg.get .sp + 65535) % 65536 := by
    rw [DCPURegisterBank.get_set_self, hrw, sanitized_value_sub_one_16]
  have hlt : ((s.reg.get .sp + 65535) % 65536) < s.ram.size := by
    rw [hsz]
    exact Nat.mod_lt _ (by norm_num)
  unfold CPU.push
  simp only [M.bind_apply, M.getCpu_apply, M.writeReg_apply]
  rw [hsp2]
  exact writeOrRead_truthy_run _ v _ hlt hv

theorem DIV_zero_run (a1 : Nat) (addr : Addr) (s : CPU) :
    CPU.DIV a1 0 addr s =
      CPU.set_by_address addr 0 { s with cycle := s.cycle + 3 } := by
  unfold CPU.DIV
  simp only [M.bind_apply, M.addCycle_apply]
  rw [if_pos trivial]

theorem MOD_zero_run (a1 : Nat) (addr : Addr) (s : CPU) :
    CPU.MOD a1 0 addr s =
      CPU.set_by_address addr 0 { s with cycle := s.cycle + 3 } := by
  unfold CPU.MOD
  simp only [M.bind_apply, M.addCycle_apply]
  rw [if_pos trivial]

/- ------------------------------------------------------------------ -/
/- Claim C1: DIV and MOD with resolved b = 0.                          -/
/- ------------------------------------------------------------------ -/

/-- Claim C1 (amended): a DIV executed with resolved b value 0 and a
valid A destination (a register or an in-range RAM cell; a literal
destination would hit the C2 key error instead) raises no error, writes
0 to the destination and adds its base cost of 3 cycles, but leaves O
unchanged — it does not write O = 0 (unless the destination is the O
register itself); a MOD with resolved b value 0 behaves identically. -/
theorem claim_C1_div_mod_by_zero (s : CPU) (a1 : Nat) (addr : Addr)
    (hv : Addr.valid s addr) :
    ((CPU.DIV a1 0 addr s).1 = .ok () ∧
      targetValue (CPU.DIV a1 0 addr s).2 addr = 0 ∧
      (addr ≠ Addr.reg .o →
        (CPU.DIV a1 0 addr s).2.reg.get .o = s.reg.get .o) ∧
      (CPU.DIV a1 0 addr s).2.cycle = s.cycle + 3) ∧
    ((CPU.MOD a1 0 addr s).1 = .ok () ∧
      targetValue (CPU.MOD a1 0 addr s).2 addr = 0 ∧
      (addr ≠ Addr.reg .o →
        (CPU.MOD a1 0 addr s).2.reg.get .o = s.reg.get .o) ∧
      (CPU.MOD a1 0 addr s).2.cycle = s.cycle + 3) := by
  rw [DIV_zero_run, MOD_zero_run]
  cases addr with
  | none => exact absurd hv (by simp [Addr.valid])
  | reg r =>
    rw [set_by_address_reg_run]
    refine ⟨⟨rfl, ?_, ?_, rfl⟩, ⟨rfl, ?_, ?_, rfl⟩⟩ <;>
      first
      | · show (DCPURegisterBank.set _ r 0).get r = 0
          rw [DCPURegisterBank.get_set_self, sanitized_value_zero]
      | · intro hne
          show (DCPURegisterBank.set _ r 0).get .o = _
          rw [DCPURegisterBank.get_set_ne]
          intro heq
          exact hne (by rw [heq])
  | ram p =>
    have hp : p < s.ram.size := hv
    rw [set_by_address_ram_run p 0 { s with cycle := s.cycle + 3 } hp]
    refine ⟨⟨rfl, ?_, fun _ => rfl, rfl⟩, ⟨rfl, ?_, fun _ => rfl, rfl⟩⟩ <;>
      · show (if p = p then sanitized_value 0 _ else _) = 0
        rw [if_pos rfl, sanitized_value_zero]

/-- Claim C1 counterexample: stepping DIV B, literal-0 on a CPU whose O
register holds 5 (and B holds 9) succeeds, writes 0 to B — but leaves
O = 5, where the claim demands that the executed DIV write O = 0. -/
theorem claim_C1_counterexample :
    (CPU.step exampleDivZero).1 = .ok () ∧
    (CPU.step exampleDivZero).2.reg.get .b = 0 ∧
    (CPU.step exampleDivZero).2.reg.get .o = 5 ∧
    (CPU.step exampleDivZero).2.cycle = 3 := by
  exact ⟨rfl, rfl, rfl, rfl⟩

theorem claim_C1_div_mod_by_zero_witness :
    Addr.valid (mkCPU []) (Addr.reg .b) ∧
      targetValue (CPU.DIV 9 0 (Addr.reg .b) (mkCPU [])).2 (Addr.reg .b) = 0 ∧
      (CPU.MOD 9 0 (Addr.reg .b) (mkCPU [])).2.reg.get .o =
        (mkCPU []).reg.get .o :=
  ⟨trivial,
   (claim_C1_div_mod_by_zero (mkCPU []) 9 (Addr.reg .b) trivial).1.2.1,
   (claim_C1_div_mod_by_zero (mkCPU []) 9 (Addr.reg .b) trivial).2.2.2.1
     (by simp)⟩

theorem JSR_zero_run (a1 : Nat) (addr : Addr) (s : CPU) (h : Std s)
    (hpc : s.reg.get .pc = 0) :
    CPU.JSR a1 addr s =
      (.ok (), { s with
        cycle := s.cycle + 2
        reg := (s.reg.set .sp ((s.reg.get .sp : Int) - 1)).set .pc
          (a1 : Int) }) := by
  unfold CPU.JSR
  simp only [M.bind_apply, M.addCycle_apply, M.getCpu_apply]
  rw [hpc]
  rw [show (((0 : Nat) : Int)) = (0 : Int) from rfl]
  rw [push_zero_run { s with cycle := s.cycle + 2 } h]
  rfl

theorem JSR_nonzero_run (a1 : Nat) (addr : Addr) (s : CPU) (h : Std s)
    (hpc : s.reg.get .pc ≠ 0) :
    CPU.JSR a1 addr s =
      (.ok (), { s with
        cycle := s.cycle + 2
        reg := (s.reg.set .sp ((s.reg.get .sp : Int) - 1)).set .pc (a1 : Int)
        ram := { s.ram with contents := fun q =>
          if q = (s.reg.get .sp + 65535) % 65536 then s.reg.get .pc
          else s.ram.contents q } }) := by
  obtain ⟨hrw, hmw, hsz, hinv⟩ := h
  have hscale : sanitized_value ((s.reg.get .pc : Nat) : Int) s.ram.word_length
      = s.reg.get .pc := by
    rw [hmw, sanitized_value_natCast_16]
    have hlt : s.reg.get .pc < 65536 := by
      have := hinv.1 .pc
      rw [hrw] at this
      omega
    exact Nat.mod_eq_of_lt hlt
  unfold CPU.JSR
  simp only [M.bind_apply, M.addCycle_apply, M.getCpu_apply]
  rw [push_truthy_run { s with cycle := s.cycle + 2 }
    ((s.reg.get .pc : Nat) : Int) (by exact_mod_cast hpc) ⟨hrw, hmw, hsz, hinv⟩]
  simp only [M.bind_apply, M.writeReg_apply]
  rw [show ({ s with cycle := s.cycle + 2 } : CPU).ram.word_length
        = s.ram.word_length from rfl] at hscale ⊢
  simp only [hscale]

/- ------------------------------------------------------------------ -/
/- Claim C8: JSR semantics.                                            -/
/- ------------------------------------------------------------------ -/

/-- Claim C8 (amended): executing JSR decrements SP by 1 mod 2^16, sets
PC to the resolved operand value and adds a base cost of 2 cycles; it
stores the at-push PC value at RAM[new SP] only when that PC value is
nonzero — when the PC to be pushed is 0, the truthiness check in push
skips the RAM write entirely and the cell keeps its previous contents. -/
theorem claim_C8_jsr_push (s : CPU) (a1 : Nat) (addr : Addr) (h : Std s) :
    (CPU.JSR a1 addr s).1 = .ok () ∧
    (CPU.JSR a1 addr s).2.reg.get .sp = (s.reg.get .sp + 65535) % 65536 ∧
    (CPU.JSR a1 addr s).2.reg.get .pc = a1 % 65536 ∧
    (CPU.JSR a1 addr s).2.cycle = s.cycle + 2 ∧
    (s.reg.get .pc ≠ 0 →
      (CPU.JSR a1 addr s).2.ram.contents ((s.reg.get .sp + 65535) % 65536)
          = s.reg.get .pc ∧
      ∀ q : Nat, q ≠ (s.reg.get .sp + 65535) % 65536 →
        (CPU.JSR a1 addr s).2.ram.contents q = s.ram.contents q) ∧
    (s.reg.get .pc = 0 → (CPU.JSR a1 addr s).2.ram = s.ram) := by
  have hrw := h.1
  have hsp : ∀ v2 : Int,
      ((s.reg.set .sp ((s.reg.get .sp : Int) - 1)).set .pc v2).get .sp
        = (s.reg.get .sp + 65535) % 65536 := by
    intro v2
    rw [DCPURegisterBank.get_set_ne _ _ _ _ (by simp),
      DCPURegisterBank.get_set_self, hrw, sanitized_value_sub_one_16]
  have hpcv : ∀ v2 : Int,
      ((s.reg.set .sp ((s.reg.get .sp : Int) - 1)).set .pc ((a1 : Nat) : Int)).get .pc
        = a1 % 65536 := by
    intro v2
    rw [DCPURegisterBank.get_set_self, DCPURegisterBank.wl_set, hrw,
      sanitized_value_natCast_16]
  by_cases hpc : s.reg.get .pc = 0
  · rw [JSR_zero_run a1 addr s h hpc]
    exact ⟨rfl, hsp _, hpcv 0, rfl, fun hne => absurd hpc hne, fun _ => rfl⟩
  · rw [JSR_nonzero_run a1 addr s h hpc]
    refine ⟨rfl, hsp _, hpcv 0, rfl, fun _ => ⟨?_, ?_⟩, fun h0 => absurd h0 hpc⟩
    · dsimp only
      rw [if_pos rfl]
    · intro q hq
      dsimp only
      rw [if_neg hq]

/-- Claim C8 counterexample: a JSR A instruction fetched from address
0xffff leaves PC = 0 at the moment of the push; the claim requires
RAM[new SP] (= RAM[4]) to hold that pushed PC value 0 afterwards, but
the step leaves the cell at its previous contents 7 (SP still moves to
4 and PC still jumps to A = 3). -/
theorem claim_C8_counterexample :
    (CPU.step exampleJsrZeroPc).1 = .ok () ∧
    (CPU.step exampleJsrZeroPc).2.reg.get .sp = 4 ∧
    (CPU.step exampleJsrZeroPc).2.ram.contents 4 = 7 ∧
    (CPU.step exampleJsrZeroPc).2.reg.get .pc = 3 := by
  exact ⟨rfl, rfl, rfl, rfl⟩

theorem claim_C8_jsr_push_witness :
    Std (mkCPU []) ∧
      (CPU.JSR 5 Addr.none (mkCPU [])).2.reg.get .sp = 65535 ∧
      (CPU.JSR 5 Addr.none (mkCPU [])).2.reg.get .pc = 5 := by
  have hstd : Std (mkCPU []) :=
    ⟨rfl, rfl, rfl, CPUInv_mkCPU [] (by decide)⟩
  exact ⟨hstd,
    (claim_C8_jsr_push (mkCPU []) 5 Addr.none hstd).2.1,
    (claim_C8_jsr_push (mkCPU []) 5 Addr.none hstd).2.2.1⟩

/- ------------------------------------------------------------------ -/
/- Claim C10: storing value 0 through the stack operand writers.       -/
/- ------------------------------------------------------------------ -/

/-- Claim C10: writing the value 0 through a stack operand skips the RAM
write while still moving SP — set_by_code with POP (0x18) leaves RAM
untouched and increments SP; with PEEK (0x19) it leaves the whole state
unchanged; with PUSH (0x1a) it leaves RAM untouched and decrements SP;
and JSR executed when the to-be-pushed PC value is 0 decrements SP
without writing RAM[new SP]. -/
theorem claim_C10_zero_value_stack_ops (s : CPU) (a1 : Nat) (addr : Addr)
    (h : Std s) :
    ((CPU.set_by_code 0x18 0 s).1 = .ok () ∧
      (CPU.set_by_code 0x18 0 s).2.ram = s.ram ∧
      (CPU.set_by_code 0x18 0 s).2.reg.get .sp = (s.reg.get .sp + 1) % 65536 ∧
      (CPU.set_by_code 0x18 0 s).2.cycle = s.cycle) ∧
    (CPU.set_by_code 0x19 0 s = (.ok (), s)) ∧
    ((CPU.set_by_code 0x1a 0 s).1 = .ok () ∧
      (CPU.set_by_code 0x1a 0 s).2.ram = s.ram ∧
      (CPU.set_by_code 0x1a 0 s).2.reg.get .sp =
        (s.reg.get .sp + 65535) % 65536) ∧
    (s.reg.get .pc = 0 →
      (CPU.JSR a1 addr s).1 = .ok () ∧
      (CPU.JSR a1 addr s).2.ram = s.ram ∧
      (CPU.JSR a1 addr s).2.reg.get .sp =
        (s.reg.get .sp + 65535) % 65536) := by
  have hrw := h.1
  have hsp : s.reg.get .sp < s.ram.size := by
    rw [h.2.2.1]
    have := h.2.2.2.1 .sp
    rw [hrw] at this
    omega
  have h18 : CPU.set_by_code 0x18 0 s =
      (.ok (), { s with reg := s.reg.set .sp ((s.reg.get .sp : Int) + 1) }) := by
    unfold CPU.set_by_code
    simp only [M.bind_apply]
    rw [show CPU.cycleSurcharge 0x18 s = (.ok (), s) from rfl]
    rw [show CPU.set_codes 0x18 0 =
      (do let _ ← CPU.pop (some 0); pure () : M Unit) from rfl]
    simp only [M.bind_apply]
    rw [pop_zero_run s hsp]
    rfl
  have h19 : CPU.set_by_code 0x19 0 s = (.ok (), s) := by
    unfold CPU.set_by_code
    simp only [M.bind_apply]
    rw [show CPU.cycleSurcharge 0x19 s = (.ok (), s) from rfl]
    rw [show CPU.set_codes 0x19 0 =
      (do let _ ← CPU.peek (some 0); pure () : M Unit) from rfl]
    simp only [M.bind_apply]
    rw [peek_zero_run s hsp]
    rfl
  have h1a : CPU.set_by_code 0x1a 0 s =
      (.ok (), { s with reg := s.reg.set .sp ((s.reg.get .sp : Int) - 1) }) := by
    unfold CPU.set_by_code
    simp only [M.bind_apply]
    rw [show CPU.cycleSurcharge 0x1a s = (.ok (), s) from rfl]
    rw [show CPU.set_codes 0x1a 0 =
      (do let _ ← CPU.push (some 0); pure () : M Unit) from rfl]
    simp only [M.bind_apply]
    rw [push_zero_run s h]
    rfl
  refine ⟨?_, h19, ?_, ?_⟩
  · rw [h18]
    refine ⟨rfl, rfl, ?_, rfl⟩
    rw [DCPURegisterBank.get_set_self, hrw, sanitized_value_add_one_16]
  · rw [h1a]
    refine ⟨rfl, rfl, ?_⟩
    rw [DCPURegisterBank.get_set_self, hrw, sanitized_value_sub_one_16]
  · intro hpc
    rw [JSR_zero_run a1 addr s h hpc]
    refine ⟨rfl, rfl, ?_⟩
    rw [DCPURegisterBank.get_set_ne _ _ _ _ (by simp),
      DCPURegisterBank.get_set_self, hrw, sanitized_value_sub_one_16]

theorem claim_C10_zero_value_stack_ops_witness :
    Std (mkCPU []) ∧
      (CPU.set_by_code 0x18 0 (mkCPU [])).2.ram = (mkCPU []).ram ∧
      (CPU.set_by_code 0x1a 0 (mkCPU [])).2.reg.get .sp = 65535 := by
  have hstd : Std (mkCPU []) :=
    ⟨rfl, rfl, rfl, CPUInv_mkCPU [] (by decide)⟩
  exact ⟨hstd,
    (claim_C10_zero_value_stack_ops (mkCPU []) 0 Addr.none hstd).1.2.1,
    (claim_C10_zero_value_stack_ops (mkCPU []) 0 Addr.none hstd).2.2.1.2.2⟩

/- ------------------------------------------------------------------ -/
/- Claim C2: writes to literal operands.                               -/
/- ------------------------------------------------------------------ -/

/-- Claim C2, evaluated at the failing input: through the legacy
set_by_code API a literal write is indeed a silent no-op (code 0x25
leaves the state untouched; code 0x1f only adds the next-word cycle
surcharge and changes no register and no RAM cell) — but an executed
basic instruction whose A operand is a literal does NOT complete: step
on SET literal-0, literal-1 raises KeyError from set_by_address(None),
after the opcode word was fetched (PC = 1) and the SET base cost was
charged (cycle = 1).  The code contradicts the discard behaviour its
own set_codes table implements. -/
theorem claim_C2_literal_write_keyerror :
    (CPU.set_by_code 0x25 0xffff (mkCPU []) = (.ok (), mkCPU [])) ∧
    (CPU.set_by_code 0x1f 0xffff (mkCPU []) =
      (.ok (), { mkCPU [] with cycle := 1 })) ∧
    (CPU.step exampleSetLiteralDest).1 = .error .keyError ∧
    (CPU.step exampleSetLiteralDest).2.reg.get .pc = 1 ∧
    (CPU.step exampleSetLiteralDest).2.reg.get .b = 0 ∧
    (CPU.step exampleSetLiteralDest).2.cycle = 1 := by
  exact ⟨rfl, rfl, rfl, rfl, rfl, rfl⟩

/- ------------------------------------------------------------------ -/
/- Fetch and skip run lemmas.                                          -/
/- ------------------------------------------------------------------ -/

theorem next_word_run (s : CPU) (hpc : s.reg.get .pc < s.ram.size) :
    CPU.next_word s =
      (.ok (s.ram.contents (s.reg.get .pc)),
        { s with reg := s.reg.set .pc ((s.reg.get .pc : Int) + 1) }) := by
  unfold CPU.next_word
  simp only [M.bind_apply, M.getCpu_apply, M.ramGet_apply]
  rw [RAM.get_nat_run _ _ hpc]
  rfl

theorem pc_after_inc (rb : DCPURegisterBank) (hw : rb.word_length = 16) :
    (rb.set .pc ((rb.get .pc : Int) + 1)).get .pc = (rb.get .pc + 1) % 65536 := by
  rw [DCPURegisterBank.get_set_self, hw, sanitized_value_add_one_16]

theorem skipExtra_run_false (c : Nat) (s : CPU)
    (hc : CPU.needs_next_word c = false) :
    CPU.skipExtra c s = (.ok (), s) := by
  unfold CPU.skipExtra
  rw [M.ite_apply, if_neg (by rw [hc]; exact Bool.false_ne_true)]
  rfl

theorem skipExtra_run_true (c : Nat) (s : CPU)
    (hc : CPU.needs_next_word c = true) (hpc : s.reg.get .pc < s.ram.size) :
    CPU.skipExtra c s =
      (.ok (), { s with reg := s.reg.set .pc ((s.reg.get .pc : Int) + 1) }) := by
  unfold CPU.skipExtra
  rw [M.ite_apply, if_pos hc]
  simp only [M.bind_apply]
  rw [next_word_run s hpc]
  rfl

theorem skip_run (s : CPU) (h : Std s) :
    (CPU.skip_next_and_cycle s).1 = .ok () ∧
    (CPU.skip_next_and_cycle s).2.ram = s.ram ∧
    (CPU.skip_next_and_cycle s).2.cycle = s.cycle + 1 ∧
    (CPU.skip_next_and_cycle s).2.reg.get .pc =
      (s.reg.get .pc + 1
        + nwCost ((s.ram.contents (s.reg.get .pc) >>> 4) &&& 63)
        + nwCost (s.ram.contents (s.reg.get .pc) >>> 10)) % 65536 ∧
    (∀ r : RegName, r ≠ .pc →
      (CPU.skip_next_and_cycle s).2.reg.get r = s.reg.get r) ∧
    (CPU.skip_next_and_cycle s).2.reg.word_length = 16 := by
  obtain ⟨hrw, hmw, hsz, hinv⟩ := h
  have hpc0 : s.reg.get .pc < s.ram.size := by
    have := hinv.1 .pc
    rw [hrw] at this
    rw [hsz]
    omega
  have h1 := next_word_run s hpc0
  set w := s.ram.contents (s.reg.get .pc) with hw
  set s1 : CPU := { s with reg := s.reg.set .pc ((s.reg.get .pc : Int) + 1) }
    with hs1
  have hs1pc : s1.reg.get .pc = (s.reg.get .pc + 1) % 65536 :=
    pc_after_inc s.reg hrw
  have hs1w : s1.reg.word_length = 16 := by
    rw [hs1]
    show (s.reg.set _ _).word_length = 16
    rw [DCPURegisterBank.wl_set, hrw]
  have hs1pclt : s1.reg.get .pc < s1.ram.size := by
    rw [hs1pc]
    show _ < s.ram.size
    rw [hsz]
    exact Nat.mod_lt _ (by norm_num)
  unfold CPU.skip_next_and_cycle
  simp only [M.bind_apply]
  rw [h1]
  dsimp only
  rw [show (decompile_word w).2.1 = (w >>> 4) &&& 63 from rfl,
    show (decompile_word w).1 = w >>> 10 from rfl]
  by_cases ha : CPU.needs_next_word ((w >>> 4) &&& 63)
  · rw [skipExtra_run_true _ _ ha hs1pclt]
    dsimp only
    set s2 : CPU := { s1 with reg := s1.reg.set .pc ((s1.reg.get .pc : Int) + 1) }
      with hs2
    have hs2pc : s2.reg.get .pc = (s1.reg.get .pc + 1) % 65536 :=
      pc_after_inc s1.reg hs1w
    have hs2w : s2.reg.word_length = 16 := by
      rw [hs2]
      show (s1.reg.set _ _).word_length = 16
      rw [DCPURegisterBank.wl_set, hs1w]
    have hs2pclt : s2.reg.get .pc < s2.ram.size := by
      rw [hs2pc]
      show _ < s.ram.size
      rw [hsz]
      exact Nat.mod_lt _ (by norm_num)
    by_cases hb : CPU.needs_next_word (w >>> 10)
    · rw [skipExtra_run_true _ _ hb hs2pclt]
      dsimp only [M.addCycle_apply]
      refine ⟨rfl, rfl, rfl, ?_, ?_, ?_⟩
      · show (s2.reg.set .pc ((s2.reg.get .pc : Int) + 1)).get .pc = _
        rw [pc_after_inc s2.reg hs2w, hs2pc, hs1pc]
        unfold nwCost
        rw [if_pos ha, if_pos hb]
        omega
      · intro r hr
        show ((((s.reg.set .pc _).set .pc _).set .pc _)).get r = _
        rw [DCPURegisterBank.get_set_ne _ _ _ _ hr,
          DCPURegisterBank.get_set_ne _ _ _ _ hr,
          DCPURegisterBank.get_set_ne _ _ _ _ hr]
      · show ((((s.reg.set .pc _).set .pc _).set .pc _)).word_length = 16
        rw [DCPURegisterBank.wl_set, DCPURegisterBank.wl_set,
          DCPURegisterBank.wl_set, hrw]
    · rw [skipExtra_run_false _ _ (by simpa using hb)]
      dsimp only [M.addCycle_apply]
      refine ⟨rfl, rfl, rfl, ?_, ?_, ?_⟩
      · rw [hs2pc, hs1pc]
        unfold nwCost
        rw [if_pos ha, if_neg hb]
        omega
      · intro r hr
        show (((s.reg.set .pc _).set .pc _)).get r = _
        rw [DCPURegisterBank.get_set_ne _ _ _ _ hr,
          DCPURegisterBank.get_set_ne _ _ _ _ hr]
      · show (((s.reg.set .pc _).set .pc _)).word_length = 16
        rw [DCPURegisterBank.wl_set, DCPURegisterBank.wl_set, hrw]
  · rw [skipExtra_run_false _ _ (by simpa using ha)]
    dsimp only
    by_cases hb : CPU.needs_next_word (w >>> 10)
    · rw [skipExtra_run_true _ _ hb hs1pclt]
      dsimp only [M.addCycle_apply]
      refine ⟨rfl, rfl, rfl, ?_, ?_, ?_⟩
      · show (s1.reg.set .pc ((s1.reg.get .pc : Int) + 1)).get .pc = _
        rw [pc_after_inc s1.reg hs1w, hs1pc]
        unfold nwCost
        rw [if_neg ha, if_pos hb]
        omega
      · intro r hr
        show (((s.reg.set .pc _).set .pc _)).get r = _
        rw [DCPURegisterBank.get_set_ne _ _ _ _ hr,
          DCPURegisterBank.get_set_ne _ _ _ _ hr]
      · show (((s.reg.set .pc _).set .pc _)).word_length = 16
        rw [DCPURegisterBank.wl_set, DCPURegisterBank.wl_set, hrw]
    · rw [skipExtra_run_false _ _ (by simpa using hb)]
      dsimp only [M.addCycle_apply]
      refine ⟨rfl, rfl, rfl, ?_, ?_, ?_⟩
      · rw [hs1pc]
        unfold nwCost
        rw [if_neg ha, if_neg hb]
      · intro r hr
        show ((s.reg.set .pc _)).get r = _
        rw [DCPURegisterBank.get_set_ne _ _ _ _ hr]
      · show ((s.reg.set .pc _)).word_length = 16
        rw [DCPURegisterBank.wl_set, hrw]

/- ------------------------------------------------------------------ -/
/- Claim C6: failed conditionals skip the next instruction.            -/
/- ------------------------------------------------------------------ -/

/-- Claim C6: when a conditional (IFE/IFN/IFG/IFB) dispatches with a
failing test, it advances PC past exactly one following word plus one
extra word for each of that word's a and b operand codes that consume a
next word (codes 0x10..0x17, 0x1e, 0x1f — CPU.needs_next_word), adds
exactly 1 cycle beyond the conditional's base cost of 2, and changes no
register other than PC and no RAM cell. -/
theorem claim_C6_failed_conditional_skip (s : CPU) (a1 b1 : Nat)
    (addr : Addr) (op : Opcode) (h : Std s)
    (hop : (op = .IFE ∧ a1 ≠ b1) ∨ (op = .IFN ∧ a1 = b1) ∨
           (op = .IFG ∧ ¬ a1 > b1) ∨ (op = .IFB ∧ a1 &&& b1 = 0)) :
    (CPU.execBasic op a1 b1 addr s).1 = .ok () ∧
    (CPU.execBasic op a1 b1 addr s).2.ram = s.ram ∧
    (CPU.execBasic op a1 b1 addr s).2.cycle = s.cycle + 2 + 1 ∧
    (CPU.execBasic op a1 b1 addr s).2.reg.get .pc =
      (s.reg.get .pc + 1
        + nwCost ((s.ram.contents (s.reg.get .pc) >>> 4) &&& 63)
        + nwCost (s.ram.contents (s.reg.get .pc) >>> 10)) % 65536 ∧
    (∀ r : RegName, r ≠ .pc →
      (CPU.execBasic op a1 b1 addr s).2.reg.get r = s.reg.get r) := by
  have hskip := skip_run { s with cycle := s.cycle + 2 } h
  have hrun : CPU.execBasic op a1 b1 addr s =
      CPU.skip_next_and_cycle { s with cycle := s.cycle + 2 } := by
    rcases hop with ⟨ho, hc⟩ | ⟨ho, hc⟩ | ⟨ho, hc⟩ | ⟨ho, hc⟩ <;> subst ho
    · show CPU.IFE a1 b1 addr s = _
      unfold CPU.IFE
      simp only [M.bind_apply, M.addCycle_apply]
      rw [M.ite_apply, if_neg hc]
    · show CPU.IFN a1 b1 addr s = _
      unfold CPU.IFN
      simp only [M.bind_apply, M.addCycle_apply]
      rw [M.ite_apply, if_neg (not_not_intro hc)]
    · show CPU.IFG a1 b1 addr s = _
      unfold CPU.IFG
      simp only [M.bind_apply, M.addCycle_apply]
      rw [M.ite_apply, if_neg hc]
    · show CPU.IFB a1 b1 addr s = _
      unfold CPU.IFB
      simp only [M.bind_apply, M.addCycle_apply]
      rw [M.ite_apply, if_neg (not_not_intro hc)]
  rw [hrun]
  exact ⟨hskip.1, hskip.2.1, hskip.2.2.1, hskip.2.2.2.1, hskip.2.2.2.2.1⟩

theorem claim_C6_failed_conditional_skip_witness :
    Std (mkCPU [0x7803, 0x1000]) ∧ (1 : Nat) ≠ 2 ∧
      (CPU.execBasic .IFE 1 2 Addr.none (mkCPU [0x7803, 0x1000])).2.reg.get
          .pc = 2 ∧
      (CPU.execBasic .IFE 1 2 Addr.none (mkCPU [0x7803, 0x1000])).2.cycle
          = 3 := by
  have hstd : Std (mkCPU [0x7803, 0x1000]) :=
    ⟨rfl, rfl, rfl, CPUInv_mkCPU _ (by decide)⟩
  have hmain := claim_C6_failed_conditional_skip (mkCPU [0x7803, 0x1000])
    1 2 Addr.none .IFE hstd (Or.inl ⟨rfl, by decide⟩)
  exact ⟨hstd, by decide, hmain.2.2.2.1, hmain.2.2.1⟩

/- ------------------------------------------------------------------ -/
/- Claim C7: A is resolved before B; the write target is captured.     -/
/- ------------------------------------------------------------------ -/

/-- Claim C7: for a basic instruction, step is exactly the staged
pipeline in which operand A is fully resolved first (all its side
effects — next-word consumption, SP changes — turn state s0 into s1),
operand B is resolved second in the state A left behind (s1 into s2),
and the opcode then executes in s2 with the write target a_addr that A
captured back at its own resolution time — B's later SP or PC changes
cannot redirect the write, and B's own target is discarded. -/
theorem claim_C7_operand_order (s s0 sA s1 sB s2 : CPU) (w bb aa oo : Nat)
    (op : Opcode) (a_addr : Addr) (a_val : Nat) (b_addr : Addr) (b_val : Nat)
    (hfetch : CPU.next_word s = (.ok w, s0))
    (hdec : decompile_word w = (bb, aa, oo))
    (hop : opcodeOfNat oo = some op)
    (hnb : op ≠ Opcode.NONBASIC)
    (haddr : CPU.address_for_operand aa s0 = (.ok a_addr, sA))
    (haval : CPU.get_by_address a_addr aa sA = (.ok a_val, s1))
    (hbaddr : CPU.address_for_operand bb s1 = (.ok b_addr, sB))
    (hbval : CPU.get_by_address b_addr bb sB = (.ok b_val, s2)) :
    CPU.step s = CPU.execBasic op a_val b_val a_addr s2 := by
  unfold CPU.step
  simp only [M.bind_apply]
  rw [hfetch]
  dsimp only
  rw [hdec]
  dsimp only
  rw [hop]
  dsimp only
  rw [M.ite_apply, if_neg hnb]
  unfold CPU.resolve_operand
  simp only [M.bind_apply]
  rw [haddr]
  dsimp only
  rw [haval]
  dsimp only
  simp only [M.pure_apply]
  rw [hbaddr]
  dsimp only
  rw [hbval]

theorem claim_C7_operand_order_witness :
    CPU.step exampleSetIndirect =
      CPU.execBasic .SET 0 0x20 (Addr.ram 0x1000)
        { reg := { regbank0 with pc := 3 }, ram := exampleSetIndirect.ram,
          cycle := 2 } :=
  claim_C7_operand_order exampleSetIndirect _ _ _ _ _ 0x7de1 0x1f 0x1e 0x1
    .SET (Addr.ram 0x1000) 0 Addr.none 0x20 rfl rfl rfl (by decide) rfl rfl
    rfl rfl

/- ------------------------------------------------------------------ -/
/- Toward claim C4: frame lemmas for operand resolution.               -/
/- ------------------------------------------------------------------ -/

theorem needs_next_word_false (c : Nat)
    (h : ¬(0x10 ≤ c ∧ c ≤ 0x17) ∧ c ≠ 0x1e ∧ c ≠ 0x1f) :
    CPU.needs_next_word c = false := by
  unfold CPU.needs_next_word
  simp
  omega

theorem needs_next_word_true (c : Nat)
    (h : (0x10 ≤ c ∧ c ≤ 0x17) ∨ c = 0x1e ∨ c = 0x1f) :
    CPU.needs_next_word c = true := by
  unfold CPU.needs_next_word
  rcases h with ⟨h1, h2⟩ | h | h
  · simp [h1, h2]
  · simp [h]
  · simp [h]

theorem nwCost_false (c : Nat) (h : CPU.needs_next_word c = false) :
    nwCost c = 0 := by
  unfold nwCost
  rw [h]
  rfl

theorem nwCost_true (c : Nat) (h : CPU.needs_next_word c = true) :
    nwCost c = 1 := by
  unfold nwCost
  rw [h]
  rfl

theorem cycleSurcharge_run (c : Nat) (s : CPU) :
    CPU.cycleSurcharge c s =
      (.ok (), if CPU.needs_next_word c then { s with cycle := s.cycle + 1 }
               else s) := by
  unfold CPU.cycleSurcharge
  rw [M.ite_apply]
  split
  · rfl
  · rfl

theorem Std_set_reg (s : CPU) (r : RegName) (v : Int) (h : Std s) :
    Std { s with reg := s.reg.set r v } := by
  obtain ⟨hrw, hmw, hsz, hinv⟩ := h
  refine ⟨?_, hmw, hsz, ⟨?_, hinv.2⟩⟩
  · show (s.reg.set r v).word_length = 16
    rw [DCPURegisterBank.wl_set, hrw]
  · intro r2
    show (s.reg.set r v).get r2 < 2 ^ (s.reg.set r v).word_length
    rw [DCPURegisterBank.get_set, DCPURegisterBank.wl_set]
    split
    · exact sanitized_value_lt v _
    · exact hinv.1 r2

theorem Std_pc_lt (s : CPU) (h : Std s) : s.reg.get .pc < s.ram.size := by
  have := h.2.2.2.1 .pc
  rw [h.1] at this
  rw [h.2.2.1]
  omega

theorem afo_run_reg (c : Nat) (h8 : c < 8) (s : CPU) :
    CPU.address_for_operand c s = (.ok (Addr.reg (regs c)), s) := by
  unfold CPU.address_for_operand
  simp only [M.bind_apply]
  rw [cycleSurcharge_run,
    if_neg (by simp [needs_next_word_false c (by omega)])]
  dsimp only
  rw [M.ite_apply, if_pos h8]
  rfl

theorem afo_run_regram (c : Nat) (h8 : ¬ c < 8) (h16 : c < 16) (s : CPU) :
    CPU.address_for_operand c s =
      (.ok (Addr.ram (s.reg.get (regs (c - 8)))), s) := by
  unfold CPU.address_for_operand
  simp only [M.bind_apply]
  rw [cycleSurcharge_run,
    if_neg (by simp [needs_next_word_false c (by omega)])]
  dsimp only
  rw [M.ite_apply, if_neg h8, M.ite_apply, if_pos h16]
  rfl

theorem afo_run_nwreg (c : Nat) (h16 : ¬ c < 16) (h24 : c < 24) (s : CPU)
    (h : Std s) :
    CPU.address_for_operand c s =
      (.ok (Addr.ram (s.ram.contents (s.reg.get .pc)
          + s.reg.get (regs (c - 16)))),
        { s with
          reg := s.reg.set .pc ((s.reg.get .pc : Int) + 1)
          cycle := s.cycle + 1 }) := by
  have hpc := Std_pc_lt s h
  unfold CPU.address_for_operand
  simp only [M.bind_apply]
  rw [cycleSurcharge_run,
    if_pos (by rw [needs_next_word_true c (by omega)])]
  dsimp only
  rw [M.ite_apply, if_neg (by omega), M.ite_apply, if_neg h16,
    M.ite_apply, if_pos h24]
  simp only [M.bind_apply]
  rw [next_word_run { s with cycle := s.cycle + 1 } hpc]
  dsimp only [M.getCpu_apply]
  simp only [M.pure_apply]
  rw [DCPURegisterBank.get_set_ne _ _ _ _ (regs_ne_pc (c - 16))]

theorem afo_run_pop (s : CPU) :
    CPU.address_for_operand 0x18 s =
      (.ok (Addr.ram (s.reg.get .sp)),
        { s with reg := s.reg.set .sp ((s.reg.get .sp : Int) + 1) }) := rfl

theorem afo_run_peek (s : CPU) :
    CPU.address_for_operand 0x19 s = (.ok (Addr.ram (s.reg.get .sp)), s) :=
  rfl

theorem afo_run_push (s : CPU) :
    CPU.address_for_operand 0x1a s =
      (.ok (Addr.ram ((s.reg.set .sp ((s.reg.get .sp : Int) - 1)).get .sp)),
        { s with reg := s.reg.set .sp ((s.reg.get .sp : Int) - 1) }) := rfl

theorem afo_run_sp (s : CPU) :
    CPU.address_for_operand 0x1b s = (.ok (Addr.reg .sp), s) := rfl

theorem afo_run_pc (s : CPU) :
    CPU.address_for_operand 0x1c s = (.ok (Addr.reg .pc), s) := rfl

theorem afo_run_o (s : CPU) :
    CPU.address_for_operand 0x1d s = (.ok (Addr.reg .o), s) := rfl

theorem afo_run_nw (s : CPU) (h : Std s) :
    CPU.address_for_operand 0x1e s =
      (.ok (Addr.ram (s.ram.contents (s.reg.get .pc))),
        { s with
          reg := s.reg.set .pc ((s.reg.get .pc : Int) + 1)
          cycle := s.cycle + 1 }) := by
  have hpc := Std_pc_lt s h
  unfold CPU.address_for_operand
  simp only [M.bind_apply]
  rw [cycleSurcharge_run, if_pos (by rw [needs_next_word_true 0x1e (by omega)])]
  dsimp only
  rw [M.ite_apply, if_neg (by omega), M.ite_apply, if_neg (by omega),
    M.ite_apply, if_neg (by omega), M.ite_apply, if_neg (by omega),
    M.ite_apply, if_neg (by omega), M.ite_apply, if_neg (by omega),
    M.ite_apply, if_neg (by omega), M.ite_apply, if_neg (by omega),
    M.ite_apply, if_neg (by omega), M.ite_apply, if_pos trivial]
  simp only [M.bind_apply]
  rw [next_word_run { s with cycle := s.cycle + 1 } hpc]
  rfl

theorem afo_run_litnw (s : CPU) :
    CPU.address_for_operand 0x1f s =
      (.ok Addr.none, { s with cycle := s.cycle + 1 }) := rfl

theorem afo_run_lit (c : Nat) (h32 : 0x20 ≤ c) (s : CPU) :
    CPU.address_for_operand c s = (.ok Addr.none, s) := by
  unfold CPU.address_for_operand
  simp only [M.bind_apply]
  rw [cycleSurcharge_run,
    if_neg (by simp [needs_next_word_false c (by omega)])]
  dsimp only
  rw [M.ite_apply, if_neg (by omega), M.ite_apply, if_neg (by omega),
    M.ite_apply, if_neg (by omega), M.ite_apply, if_neg (by omega),
    M.ite_apply, if_neg (by omega), M.ite_apply, if_neg (by omega),
    M.ite_apply, if_neg (by omega), M.ite_apply, if_neg (by omega),
    M.ite_apply, if_neg (by omega), M.ite_apply, if_neg (by omega)]
  rfl

theorem value_codes_lit_run (c : Nat) (h32 : 0x20 ≤ c) (h64 : c < 0x40)
    (s : CPU) : CPU.value_codes c s = (.ok (c - 0x20), s) := by
  unfold CPU.value_codes
  rw [M.ite_apply, if_neg (by omega), M.ite_apply, if_neg (by omega),
    M.ite_apply, if_neg (by omega), M.ite_apply, if_neg (by omega),
    M.ite_apply, if_neg (by omega), M.ite_apply, if_neg (by omega),
    M.ite_apply, if_neg (by omega), M.ite_apply, if_neg (by omega),
    M.ite_apply, if_neg (by omega), M.ite_apply, if_neg (by omega),
    M.ite_apply, if_neg (by omega), M.ite_apply, if_pos h64]
  rfl

theorem pair_ok_inv {A0 addr : Addr} {V0 v : Nat} {S0 sr : CPU}
    (h : ((.ok (A0, V0) : Except Err (Addr × Nat)), S0) = (.ok (addr, v), sr)) :
    A0 = addr ∧ V0 = v ∧ S0 = sr := by
  injection h with h1 h2
  injection h1 with h1
  injection h1 with ha hv
  exact ⟨ha, hv, h2⟩

theorem resolve_operand_frame (c : Nat) (s sr : CPU) (addr : Addr) (v : Nat)
    (h : Std s) (hc : c ≤ 63)
    (hrun : CPU.resolve_operand c s = (.ok (addr, v), sr)) :
    sr.ram = s.ram ∧ Std sr ∧
    sr.reg.get .pc = (s.reg.get .pc + nwCost c) % 65536 ∧
    (addr = Addr.reg .pc → c = 0x1c) := by
  have hpclt : s.reg.get .pc < 65536 := by
    have := h.2.2.2.1 .pc
    rw [h.1] at this
    omega
  have hpc0 : ∀ cz : Nat, CPU.needs_next_word cz = false →
      (s.reg.get .pc + nwCost cz) % 65536 = s.reg.get .pc := by
    intro cz hz
    rw [nwCost_false _ hz, Nat.add_zero, Nat.mod_eq_of_lt hpclt]
  unfold CPU.resolve_operand at hrun
  simp only [M.bind_apply] at hrun
  by_cases h8 : c < 8
  · rw [afo_run_reg c h8] at hrun
    dsimp only at hrun
    simp only [M.readReg_apply, M.pure_apply] at hrun
    obtain ⟨ha, hv, hs⟩ := pair_ok_inv hrun
    subst hs
    refine ⟨rfl, h, ?_, ?_⟩
    · rw [hpc0 c (needs_next_word_false c (by omega))]
    · intro heq
      rw [← ha] at heq
      injection heq with heq2
      exact absurd heq2 (regs_ne_pc c)
  by_cases h16 : c < 16
  · rw [afo_run_regram c h8 h16] at hrun
    dsimp only at hrun
    simp only [CPU.get_by_address, M.ramGet_apply] at hrun
    cases hg : s.ram.get ((s.reg.get (regs (c - 8)) : Nat) : Int) with
    | ok w2 =>
      rw [hg] at hrun
      dsimp only at hrun
      simp only [M.pure_apply] at hrun
      obtain ⟨ha, hv, hs⟩ := pair_ok_inv hrun
      subst hs
      refine ⟨rfl, h, ?_, ?_⟩
      · rw [hpc0 c (needs_next_word_false c (by omega))]
      · intro heq
        rw [← ha] at heq
        exact absurd heq (by simp)
    | error e =>
      rw [hg] at hrun
      simp at hrun
  by_cases h24 : c < 24
  · rw [afo_run_nwreg c h16 h24 s h] at hrun
    dsimp only at hrun
    simp only [CPU.get_by_address, M.ramGet_apply] at hrun
    cases hg : ({ s with
        reg := s.reg.set .pc ((s.reg.get .pc : Int) + 1)
        cycle := s.cycle + 1 } : CPU).ram.get
          ((s.ram.contents (s.reg.get .pc)
            + s.reg.get (regs (c - 16)) : Nat) : Int) with
    | ok w2 =>
      rw [hg] at hrun
      dsimp only at hrun
      simp only [M.pure_apply] at hrun
      obtain ⟨ha, hv, hs⟩ := pair_ok_inv hrun
      subst hs
      refine ⟨rfl, ?_, ?_, ?_⟩
      · exact Std_set_reg s .pc _ h
      · show (s.reg.set .pc ((s.reg.get .pc : Int) + 1)).get .pc = _
        rw [pc_after_inc s.reg h.1, nwCost_true c (needs_next_word_true c (by omega))]
      · intro heq
        rw [← ha] at heq
        exact absurd heq (by simp)
    | error e =>
      rw [hg] at hrun
      simp at hrun
  by_cases he24 : c = 24
  · subst he24
    rw [afo_run_pop] at hrun
    dsimp only at hrun
    simp only [CPU.get_by_address, M.ramGet_apply] at hrun
    cases hg : ({ s with
        reg := s.reg.set .sp ((s.reg.get .sp : Int) + 1) } : CPU).ram.get
          ((s.reg.get .sp : Nat) : Int) with
    | ok w2 =>
      rw [hg] at hrun
      dsimp only at hrun
      simp only [M.pure_apply] at hrun
      obtain ⟨ha, hv, hs⟩ := pair_ok_inv hrun
      subst hs
      refine ⟨rfl, Std_set_reg s .sp _ h, ?_, ?_⟩
      · show (s.reg.set .sp _).get .pc = _
        rw [DCPURegisterBank.get_set_ne _ _ _ _ (by simp)]
        rw [hpc0 24 (needs_next_word_false 24 (by omega))]
      · intro heq
        rw [← ha] at heq
        exact absurd heq (by simp)
    | error e =>
      rw [hg] at hrun
      simp at hrun
  by_cases he25 : c = 25
  · subst he25
    rw [afo_run_peek] at hrun
    dsimp only at hrun
    simp only [CPU.get_by_address, M.ramGet_apply] at hrun
    cases hg : s.ram.get ((s.reg.get .sp : Nat) : Int) with
    | ok w2 =>
      rw [hg] at hrun
      dsimp only at hrun
      simp only [M.pure_apply] at hrun
      obtain ⟨ha, hv, hs⟩ := pair_ok_inv hrun
      subst hs
      refine ⟨rfl, h, ?_, ?_⟩
      · rw [hpc0 25 (needs_next_word_false 25 (by omega))]
      · intro heq
        rw [← ha] at heq
        exact absurd heq (by simp)
    | error e =>
      rw [hg] at hrun
      simp at hrun
  by_cases he26 : c = 26
  · subst he26
    rw [afo_run_push] at hrun
    dsimp only at hrun
    simp only [CPU.get_by_address, M.ramGet_apply] at hrun
    cases hg : ({ s with
        reg := s.reg.set .sp ((s.reg.get .sp : Int) - 1) } : CPU).ram.get
          (((s.reg.set .sp ((s.reg.get .sp : Int) - 1)).get .sp : Nat) : Int) with
    | ok w2 =>
      rw [hg] at hrun
      dsimp only at hrun
      simp only [M.pure_apply] at hrun
      obtain ⟨ha, hv, hs⟩ := pair_ok_inv hrun
      subst hs
      refine ⟨rfl, Std_set_reg s .sp _ h, ?_, ?_⟩
      · show (s.reg.set .sp _).get .pc = _
        rw [DCPURegisterBank.get_set_ne _ _ _ _ (by simp)]
        rw [hpc0 26 (needs_next_word_false 26 (by omega))]
      · intro heq
        rw [← ha] at heq
        exact absurd heq (by simp)
    | error e =>
      rw [hg] at hrun
      simp at hrun
  by_cases he27 : c = 27
  · subst he27
    rw [afo_run_sp] at hrun
    dsimp only at hrun
    simp only [M.readReg_apply, M.pure_apply] at hrun
    obtain ⟨ha, hv, hs⟩ := pair_ok_inv hrun
    subst hs
    refine ⟨rfl, h, ?_, ?_⟩
    · rw [hpc0 27 (needs_next_word_false 27 (by omega))]
    · intro heq
      rw [← ha] at heq
      injection heq with heq2
      exact absurd heq2 (by simp)
  by_cases he28 : c = 28
  · subst he28
    rw [afo_run_pc] at hrun
    dsimp only at hrun
    simp only [M.readReg_apply, M.pure_apply] at hrun
    obtain ⟨ha, hv, hs⟩ := pair_ok_inv hrun
    subst hs
    refine ⟨rfl, h, ?_, fun _ => rfl⟩
    rw [hpc0 28 (needs_next_word_false 28 (by omega))]
  by_cases he29 : c = 29
  · subst he29
    rw [afo_run_o] at hrun
    dsimp only at hrun
    simp only [M.readReg_apply, M.pure_apply] at hrun
    obtain ⟨ha, hv, hs⟩ := pair_ok_inv hrun
    subst hs
    refine ⟨rfl, h, ?_, ?_⟩
    · rw [hpc0 29 (needs_next_word_false 29 (by omega))]
    · intro heq
      rw [← ha] at heq
      injection heq with heq2
      exact absurd heq2 (by simp)
  by_cases he30 : c = 30
  · subst he30
    rw [afo_run_nw s h] at hrun
    dsimp only at hrun
    simp only [CPU.get_by_address, M.ramGet_apply] at hrun
    cases hg : ({ s with
        reg := s.reg.set .pc ((s.reg.get .pc : Int) + 1)
        cycle := s.cycle + 1 } : CPU).ram.get
          ((s.ram.contents (s.reg.get .pc) : Nat) : Int) with
    | ok w2 =>
      rw [hg] at hrun
      dsimp only at hrun
      simp only [M.pure_apply] at hrun
      obtain ⟨ha, hv, hs⟩ := pair_ok_inv hrun
      subst hs
      refine ⟨rfl, Std_set_reg s .pc _ h, ?_, ?_⟩
      · show (s.reg.set .pc ((s.reg.get .pc : Int) + 1)).get .pc = _
        rw [pc_after_inc s.reg h.1,
          nwCost_true 30 (needs_next_word_true 30 (by omega))]
      · intro heq
        rw [← ha] at heq
        exact absurd heq (by simp)
    | error e =>
      rw [hg] at hrun
      simp at hrun
  by_cases he31 : c = 31
  · subst he31
    rw [afo_run_litnw] at hrun
    dsimp only at hrun
    rw [show CPU.get_by_address Addr.none 31 = CPU.value_codes 31 from rfl,
      show CPU.value_codes 31 = CPU.next_word from rfl] at hrun
    rw [next_word_run { s with cycle := s.cycle + 1 } (Std_pc_lt s h)] at hrun
    dsimp only at hrun
    simp only [M.pure_apply] at hrun
    obtain ⟨ha, hv, hs⟩ := pair_ok_inv hrun
    subst hs
    refine ⟨rfl, Std_set_reg s .pc _ h, ?_, ?_⟩
    · show (s.reg.set .pc ((s.reg.get .pc : Int) + 1)).get .pc = _
      rw [pc_after_inc s.reg h.1,
        nwCost_true 31 (needs_next_word_true 31 (by omega))]
    · intro heq
      rw [← ha] at heq
      exact absurd heq (by simp)
  · rw [afo_run_lit c (by omega)] at hrun
    dsimp only at hrun
    rw [show CPU.get_by_address Addr.none c = CPU.value_codes c from rfl] at hrun
    rw [value_codes_lit_run c (by omega) (by omega)] at hrun
    dsimp only at hrun
    simp only [M.pure_apply] at hrun
    obtain ⟨ha, hv, hs⟩ := pair_ok_inv hrun
    subst hs
    refine ⟨rfl, h, ?_, ?_⟩
    · rw [hpc0 c (needs_next_word_false c (by omega))]
    · intro heq
      rw [← ha] at heq
      exact absurd heq (by simp)

theorem pc_of_bind {α β : Type} (m : M α) (f : α → M β)
    (hm : ∀ t, (m t).2.reg.get .pc = t.reg.get .pc)
    (hf : ∀ a t, (f a t).2.reg.get .pc = t.reg.get .pc) (s : CPU) :
    ((m >>= f) s).2.reg.get .pc = s.reg.get .pc := by
  simp only [M.bind_apply]
  rcases hms : m s with ⟨res, s1⟩
  have h1 := hm s
  rw [hms] at h1
  cases res with
  | ok a =>
    dsimp only
    rw [hf a s1, h1]
  | error e =>
    dsimp only
    exact h1

theorem pc_of_ite {α : Type} (c : Prop) [Decidable c] (m1 m2 : M α)
    (h1 : ∀ t, (m1 t).2.reg.get .pc = t.reg.get .pc)
    (h2 : ∀ t, (m2 t).2.reg.get .pc = t.reg.get .pc) (s : CPU) :
    ((if c then m1 else m2) s).2.reg.get .pc = s.reg.get .pc := by
  split
  · exact h1 s
  · exact h2 s

theorem pc_of_addCycle (n : Nat) (t : CPU) :
    (M.addCycle n t).2.reg.get .pc = t.reg.get .pc := rfl

theorem pc_of_pure {α : Type} (a : α) (t : CPU) :
    ((pure a : M α) t).2.reg.get .pc = t.reg.get .pc := rfl

theorem pc_of_writeReg_ne (r : RegName) (hr : r ≠ .pc) (v : Int) (t : CPU) :
    (M.writeReg r v t).2.reg.get .pc = t.reg.get .pc := by
  simp only [M.writeReg_apply]
  exact DCPURegisterBank.get_set_ne _ _ _ _ (Ne.symm hr)

theorem pc_of_ramSet (p : Nat) (v : Int) (t : CPU) :
    (M.ramSet p v t).2.reg.get .pc = t.reg.get .pc := by
  simp only [M.ramSet_apply]
  rcases ht : t.ram.set (p : Int) v with r2 | e
  · rfl
  · rfl

theorem pc_of_set_by_address (addr : Addr) (haddr : addr ≠ Addr.reg .pc)
    (v : Int) (t : CPU) :
    (CPU.set_by_address addr v t).2.reg.get .pc = t.reg.get .pc := by
  cases addr with
  | none => rfl
  | ram p => exact pc_of_ramSet p v t
  | reg r =>
    refine pc_of_writeReg_ne r ?_ v t
    intro hre
    exact haddr (by rw [hre])

theorem execBasic_pc_noncond (op : Opcode) (a1 b1 : Nat) (addr : Addr)
    (s : CPU)
    (hnc : op ≠ .NONBASIC ∧ op ≠ .IFE ∧ op ≠ .IFN ∧ op ≠ .IFG ∧ op ≠ .IFB)
    (haddr : addr ≠ Addr.reg .pc) :
    (CPU.execBasic op a1 b1 addr s).2.reg.get .pc = s.reg.get .pc := by
  have hset : ∀ (v : Int) (t : CPU),
      (CPU.set_by_address addr v t).2.reg.get .pc = t.reg.get .pc :=
    fun v t => pc_of_set_by_address addr haddr v t
  have hwo : ∀ (v : Int) (t : CPU),
      (M.writeReg .o v t).2.reg.get .pc = t.reg.get .pc :=
    fun v t => pc_of_writeReg_ne .o (by simp) v t
  cases op with
  | NONBASIC => exact absurd rfl hnc.1
  | IFE => exact absurd rfl hnc.2.1
  | IFN => exact absurd rfl hnc.2.2.1
  | IFG => exact absurd rfl hnc.2.2.2.1
  | IFB => exact absurd rfl hnc.2.2.2.2
  | SET =>
    show (CPU.SET a1 b1 addr s).2.reg.get .pc = _
    unfold CPU.SET
    exact pc_of_bind _ _ (pc_of_addCycle 1) (fun u t => hset _ t) s
  | ADD =>
    show (CPU.ADD a1 b1 addr s).2.reg.get .pc = _
    unfold CPU.ADD
    refine pc_of_bind _ _ (pc_of_addCycle 2) (fun u => ?_) s
    intro t
    exact pc_of_bind _ _ (fun t2 => hset _ t2) (fun u2 t2 => hwo _ t2) t
  | SUB =>
    show (CPU.SUB a1 b1 addr s).2.reg.get .pc = _
    unfold CPU.SUB
    refine pc_of_bind _ _ (pc_of_addCycle 2) (fun u => ?_) s
    intro t
    exact pc_of_bind _ _ (fun t2 => hset _ t2) (fun u2 t2 => hwo _ t2) t
  | MUL =>
    show (CPU.MUL a1 b1 addr s).2.reg.get .pc = _
    unfold CPU.MUL
    refine pc_of_bind _ _ (pc_of_addCycle 2) (fun u => ?_) s
    intro t
    exact pc_of_bind _ _ (fun t2 => hset _ t2) (fun u2 t2 => hwo _ t2) t
  | DIV =>
    show (CPU.DIV a1 b1 addr s).2.reg.get .pc = _
    unfold CPU.DIV
    refine pc_of_bind _ _ (pc_of_addCycle 3) (fun u => ?_) s
    intro t
    refine pc_of_ite _ _ _ (fun t2 => hset _ t2) ?_ t
    intro t2
    exact pc_of_bind _ _ (fun t3 => hset _ t3) (fun u2 t3 => hwo _ t3) t2
  | MOD =>
    show (CPU.MOD a1 b1 addr s).2.reg.get .pc = _
    unfold CPU.MOD
    refine pc_of_bind _ _ (pc_of_addCycle 3) (fun u => ?_) s
    intro t
    exact pc_of_ite _ _ _ (fun t2 => hset _ t2) (fun t2 => hset _ t2) t
  | SHL =>
    show (CPU.SHL a1 b1 addr s).2.reg.get .pc = _
    unfold CPU.SHL
    refine pc_of_bind _ _ (pc_of_addCycle 2) (fun u => ?_) s
    intro t
    exact pc_of_bind _ _ (fun t2 => hset _ t2) (fun u2 t2 => hwo _ t2) t
  | SHR =>
    show (CPU.SHR a1 b1 addr s).2.reg.get .pc = _
    unfold CPU.SHR
    refine pc_of_bind _ _ (pc_of_addCycle 2) (fun u => ?_) s
    intro t
    exact pc_of_bind _ _ (fun t2 => hset _ t2) (fun u2 t2 => hwo _ t2) t
  | AND =>
    show (CPU.AND a1 b1 addr s).2.reg.get .pc = _
    unfold CPU.AND
    exact pc_of_bind _ _ (pc_of_addCycle 1) (fun u t => hset _ t) s
  | BOR =>
    show (CPU.BOR a1 b1 addr s).2.reg.get .pc = _
    unfold CPU.BOR
    exact pc_of_bind _ _ (pc_of_addCycle 1) (fun u t => hset _ t) s
  | XOR =>
    show (CPU.XOR a1 b1 addr s).2.reg.get .pc = _
    unfold CPU.XOR
    exact pc_of_bind _ _ (pc_of_addCycle 1) (fun u t => hset _ t) s

theorem execBasic_pc_cond (op : Opcode) (a1 b1 : Nat) (addr : Addr)
    (s : CPU) (h : Std s)
    (hc : op = .IFE ∨ op = .IFN ∨ op = .IFG ∨ op = .IFB) :
    (CPU.execBasic op a1 b1 addr s).2.reg.get .pc = s.reg.get .pc ∨
    (CPU.execBasic op a1 b1 addr s).2.reg.get .pc =
      (s.reg.get .pc + 1
        + nwCost ((s.ram.contents (s.reg.get .pc) >>> 4) &&& 63)
        + nwCost (s.ram.contents (s.reg.get .pc) >>> 10)) % 65536 := by
  have hskip := skip_run { s with cycle := s.cycle + 2 } h
  have hcase : ∀ (c : Prop) [Decidable c],
      ((if c then (pure () : M Unit) else CPU.skip_next_and_cycle)
          { s with cycle := s.cycle + 2 }).2.reg.get .pc = s.reg.get .pc ∨
      ((if c then (pure () : M Unit) else CPU.skip_next_and_cycle)
          { s with cycle := s.cycle + 2 }).2.reg.get .pc =
        (s.reg.get .pc + 1
          + nwCost ((s.ram.contents (s.reg.get .pc) >>> 4) &&& 63)
          + nwCost (s.ram.contents (s.reg.get .pc) >>> 10)) % 65536 := by
    intro c hdec
    split
    · left
      rfl
    · right
      exact hskip.2.2.2.1
  rcases hc with ho | ho | ho | ho <;> subst ho
  · show (CPU.IFE a1 b1 addr s).2.reg.get .pc = _ ∨ _
    unfold CPU.IFE
    simp only [M.bind_apply, M.addCycle_apply]
    exact hcase _
  · show (CPU.IFN a1 b1 addr s).2.reg.get .pc = _ ∨ _
    unfold CPU.IFN
    simp only [M.bind_apply, M.addCycle_apply]
    exact hcase _
  · show (CPU.IFG a1 b1 addr s).2.reg.get .pc = _ ∨ _
    unfold CPU.IFG
    simp only [M.bind_apply, M.addCycle_apply]
    exact hcase _
  · show (CPU.IFB a1 b1 addr s).2.reg.get .pc = _ ∨ _
    unfold CPU.IFB
    simp only [M.bind_apply, M.addCycle_apply]
    exact hcase _

theorem opcodeOfNat_cases (oo : Nat) (h16 : oo < 16) (h0 : oo ≠ 0) :
    ∃ op, opcodeOfNat oo = some op ∧ op ≠ .NONBASIC ∧
      ((op ≠ .IFE ∧ op ≠ .IFN ∧ op ≠ .IFG ∧ op ≠ .IFB) ∨
       (12 ≤ oo ∧ (op = .IFE ∨ op = .IFN ∨ op = .IFG ∨ op = .IFB))) := by
  interval_cases oo
  · exact absurd rfl h0
  · exact ⟨.SET, rfl, by decide, Or.inl (by decide)⟩
  · exact ⟨.ADD, rfl, by decide, Or.inl (by decide)⟩
  · exact ⟨.SUB, rfl, by decide, Or.inl (by decide)⟩
  · exact ⟨.MUL, rfl, by decide, Or.inl (by decide)⟩
  · exact ⟨.DIV, rfl, by decide, Or.inl (by decide)⟩
  · exact ⟨.MOD, rfl, by decide, Or.inl (by decide)⟩
  · exact ⟨.SHL, rfl, by decide, Or.inl (by decide)⟩
  · exact ⟨.SHR, rfl, by decide, Or.inl (by decide)⟩
  · exact ⟨.AND, rfl, by decide, Or.inl (by decide)⟩
  · exact ⟨.BOR, rfl, by decide, Or.inl (by decide)⟩
  · exact ⟨.XOR, rfl, by decide, Or.inl (by decide)⟩
  · exact ⟨.IFE, rfl, by decide, Or.inr ⟨by omega, by decide⟩⟩
  · exact ⟨.IFN, rfl, by decide, Or.inr ⟨by omega, by decide⟩⟩
  · exact ⟨.IFG, rfl, by decide, Or.inr ⟨by omega, by decide⟩⟩
  · exact ⟨.IFB, rfl, by decide, Or.inr ⟨by omega, by decide⟩⟩

/- ------------------------------------------------------------------ -/
/- Claim C4: PC advances by the number of words consumed.              -/
/- ------------------------------------------------------------------ -/

/-- Claim C4 (amended): for a successful step of a basic instruction
that does not write PC (opcode field nonzero, A operand code not 0x1c),
the change in PC mod 2^16 equals the number of words consumed from the
instruction stream: the opcode word plus its operands' inline next
words (operandsLen), plus — when a conditional skipped — one more word
plus the skipped word's own inline next words. -/
theorem claim_C4_pc_delta (s s' : CPU) (h : Std s)
    (hstep : CPU.step s = (.ok (), s'))
    (hoo : instrWord s &&& 15 ≠ 0)
    (haa : (instrWord s >>> 4) &&& 63 ≠ 0x1c) :
    s'.reg.get .pc = (s.reg.get .pc + operandsLen (instrWord s)) % 65536 ∨
    (12 ≤ instrWord s &&& 15 ∧
      s'.reg.get .pc =
        (s.reg.get .pc + operandsLen (instrWord s)
          + operandsLen (s.ram.contents
              ((s.reg.get .pc + operandsLen (instrWord s)) % 65536))) %
          65536) := by
  obtain ⟨hrw, hmw, hsz, hinv⟩ := h
  have hstd : Std s := ⟨hrw, hmw, hsz, hinv⟩
  have hoolt : instrWord s &&& 15 < 16 := by
    have : instrWord s &&& 15 ≤ 15 := Nat.and_le_right
    omega
  have haabd : (instrWord s >>> 4) &&& 63 ≤ 63 := Nat.and_le_right
  have hwlt : instrWord s < 65536 := by
    have := hinv.2 (s.reg.get .pc)
    rw [hmw] at this
    unfold instrWord
    omega
  have hbbbd : instrWord s >>> 10 ≤ 63 := by
    rw [Nat.shiftRight_eq_div_pow]
    have h10 : (2 : Nat) ^ 10 = 1024 := by norm_num
    rw [h10]
    omega
  unfold CPU.step at hstep
  simp only [M.bind_apply] at hstep
  rw [next_word_run s (Std_pc_lt s hstd)] at hstep
  dsimp only at hstep
  rw [show (decompile_word (s.ram.contents (s.reg.get .pc))).2.2
      = instrWord s &&& 15 from rfl] at hstep
  rw [show (decompile_word (s.ram.contents (s.reg.get .pc))).2.1
      = (instrWord s >>> 4) &&& 63 from rfl] at hstep
  rw [show (decompile_word (s.ram.contents (s.reg.get .pc))).1
      = instrWord s >>> 10 from rfl] at hstep
  set s1 : CPU := { s with reg := s.reg.set .pc ((s.reg.get .pc : Int) + 1) }
    with hs1def
  obtain ⟨op, hop, hnb, hclass⟩ :=
    opcodeOfNat_cases (instrWord s &&& 15) hoolt hoo
  rw [hop] at hstep
  dsimp only at hstep
  rw [M.ite_apply, if_neg hnb] at hstep
  simp only [M.bind_apply] at hstep
  rcases hra : CPU.resolve_operand ((instrWord s >>> 4) &&& 63) s1
    with ⟨resA, sA⟩
  rw [hra] at hstep
  cases resA with
  | error e => simp at hstep
  | ok pA =>
    rcases pA with ⟨a_addr, a_val⟩
    dsimp only at hstep
    have hfa := resolve_operand_frame ((instrWord s >>> 4) &&& 63) s1 sA
      a_addr a_val (Std_set_reg s .pc _ hstd) (by omega) hra
    rcases hrb : CPU.resolve_operand (instrWord s >>> 10) sA
      with ⟨resB, sB⟩
    rw [hrb] at hstep
    cases resB with
    | error e => simp at hstep
    | ok pB =>
      rcases pB with ⟨b_addr, b_val⟩
      dsimp only at hstep
      have hfb := resolve_operand_frame (instrWord s >>> 10) sA sB
        b_addr b_val hfa.2.1 (by omega) hrb
      have hs1pc : s1.reg.get .pc = (s.reg.get .pc + 1) % 65536 :=
        pc_after_inc s.reg hrw
      have hsA_pc : sA.reg.get .pc =
          (s.reg.get .pc + 1 + nwCost ((instrWord s >>> 4) &&& 63)) %
            65536 := by
        rw [hfa.2.2.1, hs1pc]
        omega
      have hsB_pc : sB.reg.get .pc =
          (s.reg.get .pc + operandsLen (instrWord s)) % 65536 := by
        rw [hfb.2.2.1, hsA_pc]
        unfold operandsLen
        omega
      have hsB_ram : sB.ram = s.ram := by
        rw [hfb.1, hfa.1, hs1def]
      have ha_pc : a_addr ≠ Addr.reg .pc := fun heq => haa (hfa.2.2.2 heq)
      have hs' : (CPU.execBasic op a_val b_val a_addr sB).2 = s' :=
        congrArg Prod.snd hstep
      rcases hclass with hncond | ⟨hge, hcond⟩
      · left
        rw [← hs']
        rw [execBasic_pc_noncond op a_val b_val a_addr sB
          ⟨hnb, hncond.1, hncond.2.1, hncond.2.2.1, hncond.2.2.2⟩ ha_pc]
        exact hsB_pc
      · have hd := execBasic_pc_cond op a_val b_val a_addr sB hfb.2.1 hcond
        rcases hd with hpass | hskip
        · left
          rw [← hs', hpass]
          exact hsB_pc
        · right
          refine ⟨hge, ?_⟩
          rw [← hs', hskip, hsB_ram, hsB_pc]
          unfold operandsLen
          omega

/-- Claim C4 counterexample: stepping SET PC, literal-5 (a one-word
instruction, operandsLen = 1, from PC = 0) succeeds and leaves PC = 5:
the change in PC is 5, not the 1 word consumed from the stream. -/
theorem claim_C4_counterexample :
    (CPU.step exampleSetPcLiteral).1 = .ok () ∧
    operandsLen (instrWord exampleSetPcLiteral) = 1 ∧
    exampleSetPcLiteral.reg.get .pc = 0 ∧
    (CPU.step exampleSetPcLiteral).2.reg.get .pc = 5 := by
  exact ⟨rfl, rfl, rfl, rfl⟩

theorem claim_C4_pc_delta_witness :
    Std exampleSetB2 ∧
    CPU.step exampleSetB2 = (.ok (), (CPU.step exampleSetB2).2) ∧
    instrWord exampleSetB2 &&& 15 ≠ 0 ∧
    (instrWord exampleSetB2 >>> 4) &&& 63 ≠ 0x1c ∧
    ((CPU.step exampleSetB2).2.reg.get .pc =
        (exampleSetB2.reg.get .pc + operandsLen (instrWord exampleSetB2)) %
          65536 ∨
      (12 ≤ instrWord exampleSetB2 &&& 15 ∧
        (CPU.step exampleSetB2).2.reg.get .pc =
          (exampleSetB2.reg.get .pc + operandsLen (instrWord exampleSetB2)
            + operandsLen (exampleSetB2.ram.contents
                ((exampleSetB2.reg.get .pc
                  + operandsLen (instrWord exampleSetB2)) % 65536))) %
            65536)) := by
  have hstd : Std exampleSetB2 :=
    ⟨rfl, rfl, rfl, CPUInv_mkCPU _ (by decide)⟩
  exact ⟨hstd, rfl, by decide, by decide,
    claim_C4_pc_delta exampleSetB2 (CPU.step exampleSetB2).2 hstd rfl
      (by decide) (by decide)⟩
